import Mathlib

/-!
Verification development for the mysql-emulator query execution pipeline.

The select pipeline (src/src/processor/select.processor.ts), the insert
processor (src/src/query-runner/insert.processor.ts) and the limit-clause
parsing (src/src/parser/select-query.ts) are embedded directly from the
source.  Components of the repository that are not present under src/
(the expression evaluator, the Server/Table/Column storage layer and the
utils helpers) are modelled from the specification; each such definition
carries a doc comment starting with `Modelled from the spec:`.
-/

set_option maxHeartbeats 1000000

namespace MysqlEmulator

/-- Runtime scalar value (spec section 3, "Value").  `vnull` models SQL
NULL / JavaScript `null`; `vundef` models the JavaScript `undefined` that
appears when a row object lacks a key.  Floating point values are outside
the modelled fragment (no claim touches them). -/
inductive Value where
  | vint (n : Int)
  | vstr (s : String)
  | vbool (b : Bool)
  | vnull
  | vundef
deriving DecidableEq, Repr

/-- A runtime row: a JavaScript object mapping qualified keys to values,
with insertion-ordered keys. -/
abbrev Row := List (String × Value)

/-- JavaScript object update `{...r, [k]: v}` for a single key: an existing
key keeps its position and gets the new value, a fresh key is appended
(object keys are unique, so replacing the first occurrence is exact). -/
def rowSet : Row → String → Value → Row
  | [], k, v => [(k, v)]
  | p :: rest, k, v => if p.1 = k then (k, v) :: rest else p :: rowSet rest k v

/-- JavaScript object lookup `r[k]` (first occurrence; keys are unique). -/
def rowLookup : Row → String → Option Value
  | [], _ => none
  | p :: rest, k => if p.1 = k then some p.2 else rowLookup rest k

/-- JavaScript spread merge `{...a, ...b}`: keys of `b` override keys of
`a`, fresh keys of `b` are appended in order. -/
def mergeRow (a b : Row) : Row :=
  b.foldl (fun acc p => rowSet acc p.1 p.2) a

/-- Modelled from the spec: `mapKeys` of the missing utils module renames
every key of a row, preserving order (used by `applyFrom` to re-key rows
as `alias-or-table::col`). -/
def mapKeys (r : Row) (f : String → String) : Row :=
  r.foldl (fun acc p => rowSet acc (f p.1) p.2) []

/-- Expression AST (spec section 3, "Expression (tagged variants)").
Constructor names follow the `type` tags of the source AST.  The scalar
sub-query variant `select` carries no payload here: the inner query is
outside the modelled fragment, and the modelled evaluator rejects it;
every claim uses the `select` tag only for its tag test. -/
inductive Expr where
  | num (v : Int)
  | str (v : String)
  | bool (v : Bool)
  | null
  | dflt
  | column_ref (table : Option String) (column : String)
  | star (table : Option String)
  | array (values : List Expr)
  | binary_expression (op : String) (left right : Expr)
  | func (name : String) (args : List Expr) (distinct : Bool)
  | caseWhen (whens : List (Expr × Expr)) (elseValue : Option Expr)
  | select
deriving Repr

/-- A SELECT column (src/src/parser/select-query.ts `SelectColumn`):
either a star, or an expression together with the generated column text
and an optional alias. -/
inductive SelectColumn where
  | star (table : Option String)
  | expr (e : Expr) (column : String) (aliasName : Option String)
deriving Repr

/-- An ORDER BY term (src/src/parser/select-query.ts `OrderBy`):
a column reference plus a direction string. -/
structure OrderByItem where
  table : Option String
  column : String
  order : String
deriving Repr

/-- The column-reference expression an ORDER BY term evaluates as. -/
def OrderByItem.toExpr (o : OrderByItem) : Expr :=
  Expr.column_ref o.table o.column

/-- Join kinds of the richer pipeline (spec section 3, "From"); `none` in
`From.join` is the comma join.  The source's unknown-join error branch is
unreachable for these typed values. -/
inductive JoinType where
  | cross
  | inner
  | left
deriving DecidableEq, Repr

/-- A base-table FROM source (spec section 3, "From").  Derived-table
sub-query sources are outside the modelled fragment (no claim touches
them). -/
structure From where
  database : Option String
  table : String
  aliasName : Option String
  join : Option JoinType
  onExpr : Option Expr
deriving Repr

/-- SelectQuery fields (spec section 3, "SelectQuery fields"). -/
structure SelectQuery where
  fromList : List From
  columns : List SelectColumn
  whereClause : Option Expr
  groupBy : List Expr
  having : Option Expr
  orderBy : List OrderByItem
  limit : Nat
  offset : Nat
  distinct : Bool
deriving Repr

/-- InsertQuery fields (spec section 4.6). -/
structure InsertQuery where
  database : Option String
  table : String
  columns : Option (List String)
  values : List (List Expr)
deriving Repr

/-- Modelled from the spec: the column kinds of the missing Column classes
(spec sections 3 and 4.1).  Only the INT width is modelled for integers;
`autoInc` is the auto-increment capability flag of the integer variant. -/
inductive ColumnKind where
  | int (unsigned : Bool) (autoInc : Bool)
  | varchar (n : Nat)
  | datetime
deriving DecidableEq, Repr

/-- Modelled from the spec: a column definition of the missing Column
class: name, nullable flag, optional default-value expression, kind. -/
structure Column where
  name : String
  nullable : Bool
  defaultValue : Option Expr
  kind : ColumnKind
deriving Repr

/-- `c instanceof IntegerColumn && c.hasAutoIncrement()`. -/
def Column.isAutoIncrementInteger (c : Column) : Bool :=
  match c.kind with
  | ColumnKind.int _ ai => ai
  | _ => false

/-- Modelled from the spec: a typed cast error with a machine code
(`OUT_OF_RANGE_VALUE`, `INCORRECT_INTEGER_VALUE`) and a message
(spec section 4.1). -/
structure CastErr where
  code : String
  msg : String
deriving DecidableEq, Repr

/-- Decimal digits of a natural number (helper for integer parsing). -/
def parseNatDigits : List Char → Option Nat
  | [] => none
  | cs => cs.foldl (fun acc c =>
      match acc with
      | none => none
      | some n => if c.isDigit then some (n * 10 + (c.toNat - 48)) else none)
      (some 0)

/-- Modelled from the spec: parse a numeric-looking string as an integer
(section 4.1, integer cast); non-numeric strings fail. -/
def parseIntStr (s : String) : Option Int :=
  match s.toList with
  | '-' :: rest => (parseNatDigits rest).map (fun n => -(n : Int))
  | cs => (parseNatDigits cs).map (fun n => (n : Int))

/-- Modelled from the spec: `cast(value) -> Value` per column kind
(section 4.1).  Integers accept integers and numeric-looking strings,
reject non-numeric input with `INCORRECT_INTEGER_VALUE` and out-of-range
input with `OUT_OF_RANGE_VALUE`; varchar coerces to string and raises an
out-of-range error when the length exceeds the declared width; datetime
is outside the fragment the claims exercise and accepted as-is; `null`
passes through (nullability is enforced by the insert processor before
the cast). -/
def Column.cast (c : Column) (v : Value) : Except CastErr Value :=
  match c.kind with
  | ColumnKind.int unsigned _ =>
    let lo : Int := if unsigned then 0 else -2147483648
    let hi : Int := if unsigned then 4294967295 else 2147483647
    let check := fun (n : Int) =>
      if lo ≤ n ∧ n ≤ hi then Except.ok (Value.vint n)
      else Except.error ⟨"OUT_OF_RANGE_VALUE",
        "Out of range value for column '" ++ c.name ++ "'"⟩
    match v with
    | Value.vnull => Except.ok Value.vnull
    | Value.vint n => check n
    | Value.vbool b => check (if b then 1 else 0)
    | Value.vstr s =>
      match parseIntStr s with
      | some n => check n
      | none => Except.error ⟨"INCORRECT_INTEGER_VALUE",
          "Incorrect integer value: '" ++ s ++ "' for column '" ++ c.name ++ "'"⟩
    | Value.vundef => Except.error ⟨"INCORRECT_INTEGER_VALUE",
        "Incorrect integer value for column '" ++ c.name ++ "'"⟩
  | ColumnKind.varchar n =>
    let asStr := fun (s : String) =>
      if s.length ≤ n then Except.ok (Value.vstr s)
      else Except.error ⟨"OUT_OF_RANGE_VALUE",
        "Data too long for column '" ++ c.name ++ "'"⟩
    match v with
    | Value.vnull => Except.ok Value.vnull
    | Value.vstr s => asStr s
    | Value.vint m => asStr (toString m)
    | Value.vbool b => asStr (if b then "true" else "false")
    | Value.vundef => asStr ""
  | ColumnKind.datetime => Except.ok v

/-- Modelled from the spec: a Table (section 3): insertion-ordered rows,
column definitions, and the monotonic auto-increment counter whose
`getNextAutoIncrementValue()` returns the current value and advances. -/
structure Table where
  columns : List Column
  rows : List Row
  autoIncrement : Int
deriving Repr

/-- `table.insertRow(row)`: append a row in insertion order. -/
def Table.insertRow (t : Table) (r : Row) : Table :=
  { t with rows := t.rows ++ [r] }

/-- `getNextAutoIncrementValue()`: return the counter and advance it. -/
def Table.nextAutoIncrement (t : Table) : Int × Table :=
  (t.autoIncrement, { t with autoIncrement := t.autoIncrement + 1 })

/-- Modelled from the spec: the Server holds the current database name
(for the `database()` scalar function) and the named tables of the
current database.  Multi-database name resolution is outside the
fragment the claims exercise. -/
structure Server where
  currentDatabase : String
  tables : List (String × Table)
deriving Repr

/-- `server.getDatabase(db).getTable(name)` restricted to the current
database. -/
def Server.getTable (sv : Server) (name : String) : Option Table :=
  (sv.tables.find? (fun p => p.1 == name)).map (fun p => p.2)

/-- Errors at the processor boundary (spec section 4.7): user-visible
processor errors, evaluator errors, and raw cast errors that are
re-thrown unchanged. -/
inductive RunErr where
  | processor (msg : String)
  | evaluator (msg : String)
  | cast (code : String) (msg : String)
deriving DecidableEq, Repr

/-- Modelled from the spec: JavaScript truthiness of an evaluator result,
as used by WHERE/ON/HAVING filters and by CASE conditions (section 4.3:
truthy is non-zero, non-null, non-empty-string). -/
def truthy (v : Value) : Bool :=
  match v with
  | Value.vint n => n ≠ 0
  | Value.vstr s => s ≠ ""
  | Value.vbool b => b
  | Value.vnull => false
  | Value.vundef => false

/-- Modelled from the spec: the string a value contributes to
`Array.prototype.join` (group keys, DISTINCT keys): numbers print in
decimal, `null`/`undefined` become the empty string. -/
def valueToStr (v : Value) : String :=
  match v with
  | Value.vint n => toString n
  | Value.vstr s => s
  | Value.vbool b => if b then "true" else "false"
  | Value.vnull => ""
  | Value.vundef => ""

/-- Split a character list at the first `::` occurrence. -/
def splitOnColons : List Char → Option (List Char × List Char)
  | [] => none
  | ':' :: ':' :: rest => some ([], rest)
  | c :: rest => (splitOnColons rest).map (fun p => (c :: p.1, p.2))

/-- Split a qualified key `T::c` into qualifier and column (keys have the
shapes `T::c` and `::a`; see spec section 3, "Row (runtime)"). -/
def splitQualified (key : String) : Option (String × String) :=
  (splitOnColons key.toList).map (fun p => (String.mk p.1, String.mk p.2))

/-- Modelled from the spec: column-reference resolution of the evaluator
(section 4.3): try `T::c`, then the alias scope `::c`, and — only when the
table is absent — a unique `?::c` match among the row's keys; zero matches
give an unknown-column error and two matches an ambiguity error. -/
def resolveColumnRef (row : Row) (table : Option String) (column : String) :
    Except String Value :=
  match table with
  | some t =>
    match rowLookup row (t ++ "::" ++ column) with
    | some v => Except.ok v
    | none =>
      match rowLookup row ("::" ++ column) with
      | some v => Except.ok v
      | none => Except.error ("Unknown column '" ++ t ++ "." ++ column ++ "'")
  | none =>
    match rowLookup row ("::" ++ column) with
    | some v => Except.ok v
    | none =>
      match row.filter (fun p =>
          match splitQualified p.1 with
          | some (q, c) => q ≠ "" ∧ c = column
          | none => false) with
      | [] => Except.error ("Unknown column '" ++ column ++ "'")
      | [p] => Except.ok p.2
      | _ => Except.error ("Column '" ++ column ++ "' in field list is ambiguous")

/-- Modelled from the spec: `evaluateStar` (section 4.3): keep the row's
entries whose qualifier equals the requested table (or every
table-qualified entry when the table is omitted); output keys are the
unqualified column names. -/
def evaluateStar (table : Option String) (row : Row) : Row :=
  row.foldl (fun acc p =>
    match splitQualified p.1 with
    | some (q, c) =>
      if q ≠ "" ∧ (table = none ∨ table = some q) then rowSet acc c p.2 else acc
    | none => acc) []

/-- Numeric coercion used by comparisons and arithmetic (MySQL-style:
non-numeric strings coerce to 0, booleans to 0/1). -/
def numValue (v : Value) : Int :=
  match v with
  | Value.vint n => n
  | Value.vstr s => (parseIntStr s).getD 0
  | Value.vbool b => if b then 1 else 0
  | Value.vnull => 0
  | Value.vundef => 0

/-- Three-valued-logic projection: `none` for NULL/undefined, otherwise
the truthiness of the value. -/
def toBool3 (v : Value) : Option Bool :=
  match v with
  | Value.vnull => none
  | Value.vundef => none
  | _ => some (truthy v)

/-- Loose equality used by `=`, `!=` and `IN`: string-to-string compares
as strings, otherwise numerically. -/
def valEqB (a b : Value) : Bool :=
  match a, b with
  | Value.vstr x, Value.vstr y => x == y
  | _, _ => numValue a == numValue b

/-- Loose ordering used by `<` and friends and by min/max. -/
def valLtB (a b : Value) : Bool :=
  match a, b with
  | Value.vstr x, Value.vstr y => x < y
  | _, _ => numValue a < numValue b

/-- Modelled from the spec: `LIKE` pattern matching with `%`, `_` and a
backslash escape (section 4.3). -/
def likeMatch : List Char → List Char → Bool
  | [], [] => true
  | '%' :: ps, [] => likeMatch ps []
  | _ :: _, [] => false
  | [], _ :: _ => false
  | '%' :: ps, c :: cs => likeMatch ps (c :: cs) || likeMatch ('%' :: ps) cs
  | '_' :: ps, _ :: cs => likeMatch ps cs
  | '\\' :: p :: ps, c :: cs => p == c && likeMatch ps cs
  | p :: ps, c :: cs => p == c && likeMatch ps cs
termination_by ps s => (ps.length, s.length)

/-- `IS` comparison: NULL-aware identity. -/
def isCompare (a b : Value) : Bool :=
  match b with
  | Value.vnull => a == Value.vnull || a == Value.vundef
  | Value.vbool bb => toBool3 a == some bb
  | _ => valEqB a b

/-- Modelled from the spec: the binary operators of the evaluator
(section 4.3): MySQL three-valued logic for AND/OR with null, null-aware
comparisons, arithmetic on null yields null, division by zero is an
evaluator error (section 7). -/
def evalBinop (op : String) (a b : Value) : Except String Value :=
  match op with
  | "AND" =>
    match toBool3 a, toBool3 b with
    | some false, _ => Except.ok (Value.vbool false)
    | _, some false => Except.ok (Value.vbool false)
    | some true, some true => Except.ok (Value.vbool true)
    | _, _ => Except.ok Value.vnull
  | "OR" =>
    match toBool3 a, toBool3 b with
    | some true, _ => Except.ok (Value.vbool true)
    | _, some true => Except.ok (Value.vbool true)
    | some false, some false => Except.ok (Value.vbool false)
    | _, _ => Except.ok Value.vnull
  | "IS" => Except.ok (Value.vbool (isCompare a b))
  | "IS NOT" => Except.ok (Value.vbool (!isCompare a b))
  | _ =>
    if a = Value.vnull ∨ a = Value.vundef ∨ b = Value.vnull ∨ b = Value.vundef then
      Except.ok Value.vnull
    else
      match op with
      | "=" => Except.ok (Value.vbool (valEqB a b))
      | "!=" => Except.ok (Value.vbool (!valEqB a b))
      | "<" => Except.ok (Value.vbool (valLtB a b))
      | "<=" => Except.ok (Value.vbool (!valLtB b a))
      | ">" => Except.ok (Value.vbool (valLtB b a))
      | ">=" => Except.ok (Value.vbool (!valLtB a b))
      | "+" => Except.ok (Value.vint (numValue a + numValue b))
      | "-" => Except.ok (Value.vint (numValue a - numValue b))
      | "*" => Except.ok (Value.vint (numValue a * numValue b))
      | "/" =>
        if numValue b = 0 then Except.error "Division by 0"
        else Except.ok (Value.vint (numValue a / numValue b))
      | "LIKE" =>
        Except.ok (Value.vbool (likeMatch (valueToStr b).toList (valueToStr a).toList))
      | _ => Except.error ("Unknown operator '" ++ op ++ "'")

/-- The five aggregate function names of `applyGroupBy`
(src/src/processor/select.processor.ts line 116). -/
def aggregateNames : List String := ["count", "sum", "min", "max", "avg"]

/-- Deduplicate aggregate inputs by their string representation
(spec section 4.3, `distinct`). -/
def dedupValues (vs : List Value) : List Value :=
  (vs.foldl (fun (acc : List Value × List String) v =>
    let s := valueToStr v
    if acc.2.contains s then acc else (acc.1 ++ [v], acc.2 ++ [s])) ([], [])).1

/-- Modelled from the spec: fold an aggregate over the non-null argument
values of a group (section 4.3): `sum`/`avg` coerce to number and yield
null on an empty group (`count` yields 0), `min`/`max` compare
lexicographically for strings and numerically for numbers.  `avg` uses
integer division (floating point is outside the modelled fragment). -/
def aggregateResult (name : String) (vs : List Value) : Except String Value :=
  match name with
  | "count" => Except.ok (Value.vint vs.length)
  | "sum" =>
    match vs with
    | [] => Except.ok Value.vnull
    | _ => Except.ok (Value.vint ((vs.map numValue).foldl (· + ·) 0))
  | "avg" =>
    match vs with
    | [] => Except.ok Value.vnull
    | _ => Except.ok (Value.vint (((vs.map numValue).foldl (· + ·) 0) / vs.length))
  | "min" =>
    match vs with
    | [] => Except.ok Value.vnull
    | v :: rest => Except.ok (rest.foldl (fun m w => if valLtB w m then w else m) v)
  | "max" =>
    match vs with
    | [] => Except.ok Value.vnull
    | v :: rest => Except.ok (rest.foldl (fun m w => if valLtB m w then m else w) v)
  | _ => Except.error ("Unknown aggregate '" ++ name ++ "'")

/-- Whether an expression is a star (the `count(*)` argument shape). -/
def isStarExpr (e : Expr) : Bool :=
  match e with
  | Expr.star _ => true
  | _ => false

mutual

/-- Modelled from the spec: the expression evaluator of the select
pipeline (section 4.3), `evaluate(expr, row, group) -> Value`.  Aggregates
iterate the supplied group, re-evaluating their argument per row; function
lookup is by lower-cased name (section 4.3) — the repository's parser
already emits lower-cased function names, so the model matches names
directly (`database()` yields the current database name); scalar
sub-queries are outside the modelled fragment and rejected. -/
def evaluate (sv : Server) (e : Expr) (row : Row) (group : List Row) :
    Except String Value :=
  match e with
  | Expr.num n => Except.ok (Value.vint n)
  | Expr.str s => Except.ok (Value.vstr s)
  | Expr.bool b => Except.ok (Value.vbool b)
  | Expr.null => Except.ok Value.vnull
  | Expr.dflt => Except.error "DEFAULT is not allowed here"
  | Expr.select => Except.error "scalar sub-queries are outside the modelled fragment"
  | Expr.star _ => Except.error "star is not a scalar expression"
  | Expr.array _ => Except.error "array is only allowed on the right of IN"
  | Expr.column_ref t c => resolveColumnRef row t c
  | Expr.binary_expression op l r =>
    if op = "IN" then
      match r with
      | Expr.array vs => do
        let lv ← evaluate sv l row group
        let rvs ← evaluateList sv vs row group
        if lv = Value.vnull ∨ lv = Value.vundef then Except.ok Value.vnull
        else Except.ok (Value.vbool (rvs.any (fun w => valEqB lv w)))
      | _ => Except.error "IN expects an array on the right"
    else do
      let lv ← evaluate sv l row group
      let rv ← evaluate sv r row group
      evalBinop op lv rv
  | Expr.func name args dist =>
    if aggregateNames.contains name then
      match args with
      | [] => Except.error ("Incorrect arguments to function '" ++ name ++ "'")
      | a :: _ =>
        if name = "count" ∧ isStarExpr a then
          Except.ok (Value.vint group.length)
        else do
          let vs ← evaluateOverRows sv a group
          let vs := vs.filter (fun v => v ≠ Value.vnull ∧ v ≠ Value.vundef)
          let vs := if dist then dedupValues vs else vs
          aggregateResult name vs
    else
      if name = "database" then Except.ok (Value.vstr sv.currentDatabase)
      else Except.error ("Function '" ++ name ++ "' is not supported")
  | Expr.caseWhen whens elseValue =>
    evaluateCase sv whens elseValue row group
termination_by (sizeOf e, 0)

/-- Evaluate each expression of a list on the same row (IN lists). -/
def evaluateList (sv : Server) (es : List Expr) (row : Row) (group : List Row) :
    Except String (List Value) :=
  match es with
  | [] => Except.ok []
  | e :: rest => do
    let v ← evaluate sv e row group
    let vs ← evaluateList sv rest row group
    Except.ok (v :: vs)
termination_by (sizeOf es, 0)

/-- Evaluate one aggregate argument on every row of a group. -/
def evaluateOverRows (sv : Server) (e : Expr) (rows : List Row) :
    Except String (List Value) :=
  match rows with
  | [] => Except.ok []
  | r :: rest => do
    let v ← evaluate sv e r []
    let vs ← evaluateOverRows sv e rest
    Except.ok (v :: vs)
termination_by (sizeOf e, rows.length + 1)

/-- Evaluate a CASE: the first truthy WHEN wins, else the ELSE clause or
null (spec section 4.3). -/
def evaluateCase (sv : Server) (whens : List (Expr × Expr))
    (elseValue : Option Expr) (row : Row) (group : List Row) :
    Except String Value :=
  match whens with
  | [] =>
    match elseValue with
    | some e => evaluate sv e row group
    | none => Except.ok Value.vnull
  | (c, v) :: rest => do
    let cv ← evaluate sv c row group
    if truthy cv then evaluate sv v row group
    else evaluateCase sv rest elseValue row group
termination_by (sizeOf whens + sizeOf elseValue, 0)

end

/-- The grouped-rows state of the select pipeline
(src/src/processor/select.processor.ts, `groupedRows`).  `single` is the
no-GROUP-BY aggregate mode `this.groupedRows.set(1, this.rows)`: the map
entry aliases the `this.rows` array, so the in-place `Array.prototype.sort`
of `applyOrderBy` reorders it (modelled by `applyOrderBy` rewriting the
stored list), while later reassignments of `this.rows` (such as the
empty-row injection of `applySelectAndHaving`) do not touch it.
`buckets` holds the GROUP-BY buckets in first-seen order; those arrays are
rebuilt freshly on every insertion and never alias `this.rows`. -/
inductive Grouping where
  | noGroups
  | single (g : List Row)
  | buckets (bs : List (String × List Row))
deriving Repr

/-- `c.type === 'function' && ['count','sum','min','max','avg'].includes(c.name)`
(src/src/processor/select.processor.ts lines 115-117). -/
def isAggregateFunctionColumn (c : SelectColumn) : Bool :=
  match c with
  | SelectColumn.expr (Expr.func name _ _) _ _ => aggregateNames.contains name
  | _ => false

/-- `c.type === 'column_ref'` on a SELECT column. -/
def isColumnRefColumn (c : SelectColumn) : Bool :=
  match c with
  | SelectColumn.expr (Expr.column_ref _ _) _ _ => true
  | _ => false

/-- `this.query.columns.some(...)` aggregate test. -/
def hasAggregateFunction (cols : List SelectColumn) : Bool :=
  cols.any isAggregateFunctionColumn

/-- The first `column_ref` SELECT column with its 0-based position, as
found by `columns.find(...)` / `columns.indexOf(...)`
(src/src/processor/select.processor.ts lines 122-125). -/
def firstColumnRefData : List SelectColumn → Nat → Option (Nat × Option String × String)
  | [], _ => none
  | c :: rest, i =>
    match c with
    | SelectColumn.expr (Expr.column_ref t cn) _ _ => some (i, t, cn)
    | _ => firstColumnRefData rest (i + 1)

/-- `columnRef.table ? table.column : column`
(src/src/processor/select.processor.ts line 124). -/
def nonAggregatedColumnName (t : Option String) (c : String) : String :=
  match t with
  | some tn => tn ++ "." ++ c
  | none => c

/-- The nonaggregated-column error message
(src/src/processor/select.processor.ts lines 126-129). -/
def nonAggregatedMessage (i : Nat) (t : Option String) (c : String) : String :=
  "In aggregated query without GROUP BY, expression #" ++ toString (i + 1) ++
    " of SELECT list contains nonaggregated column '" ++
    nonAggregatedColumnName t c ++ "'"

/-- `Map.set` on the bucket list: an existing key keeps its first-seen
position and its rows grow, a fresh key is appended. -/
def bucketInsert (bs : List (String × List Row)) (k : String) (r : Row) :
    List (String × List Row) :=
  if bs.any (fun p => p.1 == k) then
    bs.map (fun p => if p.1 == k then (p.1, p.2 ++ [r]) else p)
  else
    bs ++ [(k, [r])]

/-- Evaluate the GROUP BY expressions on one row, wrapping evaluator
errors as `... in 'group statement'`
(src/src/processor/select.processor.ts lines 136-147). -/
def evalGroupKeys (sv : Server) : List Expr → Row → Except RunErr (List String)
  | [], _ => Except.ok []
  | e :: rest, r =>
    match evaluate sv e r [] with
    | Except.error msg => Except.error (RunErr.processor (msg ++ " in 'group statement'"))
    | Except.ok v => do
      let ss ← evalGroupKeys sv rest r
      Except.ok (valueToStr v :: ss)

/-- Bucket every row by its joined group-key string.  Modelled from the
spec for the missing `hashCode` util: the stable bucket is keyed by the
`::`-joined string itself (section 4.5 stage 3). -/
def buildBuckets (sv : Server) (groupBy : List Expr) :
    List Row → List (String × List Row) → Except RunErr (List (String × List Row))
  | [], bs => Except.ok bs
  | r :: rest, bs => do
    let ks ← evalGroupKeys sv groupBy r
    buildBuckets sv groupBy rest (bucketInsert bs (String.intercalate "::" ks) r)

/-- `applyGroupBy` (src/src/processor/select.processor.ts lines 113-148). -/
def applyGroupBy (sv : Server) (groupBy : List Expr) (cols : List SelectColumn)
    (rows : List Row) : Except RunErr Grouping :=
  if groupBy.isEmpty then
    if hasAggregateFunction cols = false then Except.ok Grouping.noGroups
    else
      match firstColumnRefData cols 0 with
      | some (i, t, cn) => Except.error (RunErr.processor (nonAggregatedMessage i t cn))
      | none => Except.ok (Grouping.single rows)
  else do
    let bs ← buildBuckets sv groupBy rows []
    Except.ok (Grouping.buckets bs)

/-- Evaluate an ON condition on a merged row, wrapping evaluator errors
as `... in 'on clause'` (src/src/processor/select.processor.ts lines 80,
88-93). -/
def evalOn (sv : Server) (onE : Option Expr) (m : Row) : Except RunErr Bool :=
  match onE with
  | none => Except.ok true
  | some e =>
    match evaluate sv e m [] with
    | Except.ok v => Except.ok (truthy v)
    | Except.error msg => Except.error (RunErr.processor (msg ++ " in 'on clause'"))

/-- The matches of one left row against the right rows
(src/src/processor/select.processor.ts lines 77-83). -/
def joinMatches (sv : Server) (a : Row) (rowsB : List Row) (onE : Option Expr) :
    Except RunErr (List Row) :=
  match rowsB with
  | [] => Except.ok []
  | b :: rest => do
    let m := mergeRow a b
    let keep ← evalOn sv onE m
    let ms ← joinMatches sv a rest onE
    Except.ok (if keep then m :: ms else ms)

/-- `joinRows` (src/src/processor/select.processor.ts lines 69-95): for
each left row collect the matching merged rows; when there are none and a
placeholder was supplied (LEFT JOIN), emit the left row merged with the
placeholder. -/
def joinRows (sv : Server) (rowsA rowsB : List Row) (onE : Option Expr)
    (ph : Option Row) : Except RunErr (List Row) :=
  match rowsA with
  | [] => Except.ok []
  | a :: rest => do
    let group ← joinMatches sv a rowsB onE
    let group :=
      if group.isEmpty then
        match ph with
        | some p => [mergeRow a p]
        | none => []
      else group
    let others ← joinRows sv rest rowsB onE ph
    Except.ok (group ++ others)

/-- The LEFT JOIN null placeholder
(src/src/processor/select.processor.ts line 61). -/
def placeholderOf (cols : List String) : Row :=
  cols.foldl (fun acc k => rowSet acc k Value.vnull) []

/-- Rows and qualified column keys of one base-table FROM source
(src/src/processor/select.processor.ts lines 44-47); the missing Server
table lookup is modelled from the spec (section 6). -/
def getFromRows (sv : Server) (f : From) : Except RunErr (List Row × List String) :=
  match sv.getTable f.table with
  | none => Except.error (RunErr.processor ("Table '" ++ f.table ++ "' doesn't exist"))
  | some tbl =>
    let qual := f.aliasName.getD f.table
    Except.ok
      (tbl.rows.map (fun r => mapKeys r (fun k => qual ++ "::" ++ k)),
       tbl.columns.map (fun c => qual ++ "::" ++ c.name))

/-- The joins of the second and later FROM sources
(src/src/processor/select.processor.ts lines 50-65); the comma join
ignores any ON expression, CROSS and INNER filter by it, LEFT JOIN
additionally supplies the null placeholder. -/
def applyFromRest (sv : Server) :
    List From → List Row → List String → Except RunErr (List Row × List String)
  | [], rows, cols => Except.ok (rows, cols)
  | f :: fs, rows, cols => do
    let (rf, cf) ← getFromRows sv f
    let joined ←
      match f.join with
      | none => joinRows sv rows rf none none
      | some JoinType.cross => joinRows sv rows rf f.onExpr none
      | some JoinType.inner => joinRows sv rows rf f.onExpr none
      | some JoinType.left => joinRows sv rows rf f.onExpr (some (placeholderOf cf))
    applyFromRest sv fs joined (cols ++ cf)

/-- `applyFrom` (src/src/processor/select.processor.ts lines 28-67)
restricted to base-table sources. -/
def applyFromAll (sv : Server) (froms : List From) :
    Except RunErr (List Row × List String) :=
  match froms with
  | [] => Except.ok ([], [])
  | f :: fs => do
    let (r0, c0) ← getFromRows sv f
    applyFromRest sv fs r0 c0

/-- Monadic filter by an expression, wrapping evaluator errors with the
given clause tag. -/
def filterRowsByExpr (sv : Server) (e : Expr) (clause : String) :
    List Row → Except RunErr (List Row)
  | [] => Except.ok []
  | r :: rest =>
    match evaluate sv e r [] with
    | Except.error msg =>
      Except.error (RunErr.processor (msg ++ " in '" ++ clause ++ "'"))
    | Except.ok v => do
      let ms ← filterRowsByExpr sv e clause rest
      Except.ok (if truthy v then r :: ms else ms)

/-- `applyWhere` (src/src/processor/select.processor.ts lines 97-111). -/
def applyWhere (sv : Server) (w : Option Expr) (rows : List Row) :
    Except RunErr (List Row) :=
  match w with
  | none => Except.ok rows
  | some e => filterRowsByExpr sv e "where clause" rows

/-- Modelled from the spec: the sort comparator of the missing `sortBy`
util (section 4.4): type-aware comparison, numbers numerically, strings
lexicographically, nulls first under ascending order. -/
def cmpValue (a b : Value) : Ordering :=
  match a, b with
  | Value.vnull, Value.vnull => Ordering.eq
  | Value.vnull, _ => Ordering.lt
  | _, Value.vnull => Ordering.gt
  | Value.vundef, Value.vundef => Ordering.eq
  | Value.vundef, _ => Ordering.lt
  | _, Value.vundef => Ordering.gt
  | Value.vint x, Value.vint y => compare x y
  | Value.vstr x, Value.vstr y => compare x y
  | x, y => compare (valueToStr x) (valueToStr y)

/-- `o.order === 'ASC' ? 1 : -1`
(src/src/processor/select.processor.ts line 158). -/
def orderDir (o : OrderByItem) : Int :=
  if o.order = "ASC" then 1 else -1

/-- Composite comparison over the per-term sort keys, each scaled by its
direction; the first non-equal term decides. -/
def cmpKeyLists : List Int → List Value → List Value → Ordering
  | d :: ds, x :: xs, y :: ys =>
    let c := cmpValue x y
    let c := if d < 0 then c.swap else c
    match c with
    | Ordering.eq => cmpKeyLists ds xs ys
    | o => o
  | _, _, _ => Ordering.eq

/-- Stable insertion: the new element goes after every element that does
not compare strictly greater. -/
def insertSorted (cmp : α → α → Ordering) (x : α) : List α → List α
  | [] => [x]
  | y :: ys => if cmp x y = Ordering.lt then x :: y :: ys else y :: insertSorted cmp x ys

/-- Stable sort (ECMAScript `Array.prototype.sort` is stable). -/
def stableSort (cmp : α → α → Ordering) (l : List α) : List α :=
  l.foldl (fun acc x => insertSorted cmp x acc) []

/-- Evaluate the ORDER BY terms on one row, wrapping evaluator errors as
`... in 'order clause'` (src/src/processor/select.processor.ts lines
155-166). -/
def rowSortKeys (sv : Server) : List OrderByItem → Row → Except RunErr (List Value)
  | [], _ => Except.ok []
  | o :: rest, r =>
    match evaluate sv (OrderByItem.toExpr o) r [] with
    | Except.error msg => Except.error (RunErr.processor (msg ++ " in 'order clause'"))
    | Except.ok v => do
      let vs ← rowSortKeys sv rest r
      Except.ok (v :: vs)

/-- Pair every row with its sort keys.  The source evaluates the mapper
lazily inside the comparator; the model evaluates it once per row, which
agrees whenever evaluation succeeds (the only situation the claims
exercise). -/
def keyedRows (sv : Server) (obs : List OrderByItem) :
    List Row → Except RunErr (List (Row × List Value))
  | [] => Except.ok []
  | r :: rest => do
    let ks ← rowSortKeys sv obs r
    let ps ← keyedRows sv obs rest
    Except.ok ((r, ks) :: ps)

/-- `applyOrderBy` (src/src/processor/select.processor.ts lines 150-167).
`this.rows.sort` sorts the array in place, so when `groupedRows` holds the
single synthetic group — the very same array — the stored group is
reordered as well; fresh GROUP BY buckets are unaffected. -/
def applyOrderBy (sv : Server) (obs : List OrderByItem) (rows : List Row)
    (g : Grouping) : Except RunErr (List Row × Grouping) :=
  if obs.isEmpty then Except.ok (rows, g)
  else do
    let keyed ← keyedRows sv obs rows
    let dirs := obs.map orderDir
    let sorted := (stableSort (fun x y => cmpKeyLists dirs x.2 y.2) keyed).map (fun p => p.1)
    Except.ok (sorted,
      match g with
      | Grouping.single _ => Grouping.single sorted
      | g' => g')

/-- `c.type === 'function'` (src/src/processor/select.processor.ts line 170). -/
def isFunctionColumn (c : SelectColumn) : Bool :=
  match c with
  | SelectColumn.expr (Expr.func _ _ _) _ _ => true
  | _ => false

/-- `['number','string','boolean','null'].includes(c.type)` (line 171). -/
def isPrimitiveColumn (c : SelectColumn) : Bool :=
  match c with
  | SelectColumn.expr (Expr.num _) _ _ => true
  | SelectColumn.expr (Expr.str _) _ _ => true
  | SelectColumn.expr (Expr.bool _) _ _ => true
  | SelectColumn.expr Expr.null _ _ => true
  | _ => false

/-- `c.type === 'binary_expression'` (line 172). -/
def isExpressionColumn (c : SelectColumn) : Bool :=
  match c with
  | SelectColumn.expr (Expr.binary_expression _ _ _) _ _ => true
  | _ => false

/-- `c.type === 'case'` (line 173). -/
def isCaseColumn (c : SelectColumn) : Bool :=
  match c with
  | SelectColumn.expr (Expr.caseWhen _ _) _ _ => true
  | _ => false

/-- `c.type === 'select'` (line 174). -/
def isSubSelectColumn (c : SelectColumn) : Bool :=
  match c with
  | SelectColumn.expr Expr.select _ _ => true
  | _ => false

/-- `c.type === 'star'`. -/
def isStarColumn (c : SelectColumn) : Bool :=
  match c with
  | SelectColumn.star _ => true
  | _ => false

/-- The empty-row injection condition of `applySelectAndHaving`
(src/src/processor/select.processor.ts lines 170-178). -/
def shouldInjectEmptyRow (cols : List SelectColumn) : Bool :=
  cols.any isFunctionColumn || cols.any isExpressionColumn ||
    cols.any isPrimitiveColumn || cols.any isCaseColumn ||
    cols.any isSubSelectColumn

/-- `if (rows.length === 0 && (...)) this.rows = [{}]` (lines 175-180). -/
def injectIfEmpty (cols : List SelectColumn) (rows : List Row) : List Row :=
  if rows.length = 0 ∧ shouldInjectEmptyRow cols then [([] : Row)] else rows

/-- `mapRow` (src/src/processor/select.processor.ts lines 187-208): build
the user-visible mapped row keyed by `alias || column-text` and the
`rawRowWithAliases` carrying `::alias` keys; evaluator errors are wrapped
as `... in 'field list'`. -/
def mapRowColumns (sv : Server) (group : List Row) (rawRow : Row) :
    List SelectColumn → Row → Row → Except RunErr (Row × Row)
  | [], mapped, rawAliases => Except.ok (mapped, rawAliases)
  | c :: rest, mapped, rawAliases =>
    match c with
    | SelectColumn.star t =>
      mapRowColumns sv group rawRow rest
        (mergeRow mapped (evaluateStar t rawRow)) rawAliases
    | SelectColumn.expr e col al =>
      match evaluate sv e rawRow group with
      | Except.error msg => Except.error (RunErr.processor (msg ++ " in 'field list'"))
      | Except.ok v =>
        let rawAliases :=
          match al with
          | some a => rowSet rawAliases ("::" ++ a) v
          | none => rawAliases
        mapRowColumns sv group rawRow rest (rowSet mapped (al.getD col) v) rawAliases

/-- `checkIfKeep` (src/src/processor/select.processor.ts lines 209-221). -/
def checkIfKeep (sv : Server) (having : Option Expr) (row : Row)
    (group : List Row) : Except RunErr Bool :=
  match having with
  | none => Except.ok true
  | some h =>
    match evaluate sv h row group with
    | Except.error msg => Except.error (RunErr.processor (msg ++ " in 'having clause'"))
    | Except.ok v => Except.ok (truthy v)

/-- The ungrouped branch of `applySelectAndHaving` (lines 222-230). -/
def selectUngrouped (sv : Server) (cols : List SelectColumn)
    (having : Option Expr) : List Row → Except RunErr (List Row)
  | [] => Except.ok []
  | r :: rest => do
    let (m, ra) ← mapRowColumns sv [] r cols [] r
    let keep ← checkIfKeep sv having ra []
    let ms ← selectUngrouped sv cols having rest
    Except.ok (if keep then m :: ms else ms)

/-- The grouped branch of `applySelectAndHaving` (lines 231-240).
`g.headD []` models `const [firstRawRow] = group`; for an empty single
group JavaScript destructures `undefined` instead, a crashing corner no
claim touches. -/
def selectGrouped (sv : Server) (cols : List SelectColumn)
    (having : Option Expr) : List (List Row) → Except RunErr (List Row)
  | [] => Except.ok []
  | g :: rest => do
    let raw := g.headD []
    let (m, ra) ← mapRowColumns sv g raw cols [] raw
    let keep ← checkIfKeep sv having ra g
    let ms ← selectGrouped sv cols having rest
    Except.ok (if keep then m :: ms else ms)

/-- The DISTINCT deduplication (lines 241-252): rows are keyed by the
`-`-joined values at the first row's keys, first occurrence wins. -/
def distinctRows (rows : List Row) : List Row :=
  match rows with
  | [] => []
  | r0 :: _ =>
    let keys := r0.map (fun p => p.1)
    (rows.foldl (fun (acc : List Row × List String) r =>
      let keyStr := String.intercalate "-" (keys.map (fun k =>
        match rowLookup r k with
        | some v => valueToStr v
        | none => ""))
      if acc.2.contains keyStr then acc else (acc.1 ++ [r], acc.2 ++ [keyStr]))
      ([], [])).1

/-- `if (this.query.distinct && this.rows.length > 0) ...` (line 241). -/
def applyDistinct (d : Bool) (rows : List Row) : List Row :=
  if d ∧ rows.length > 0 then distinctRows rows else rows

/-- `this.groupedRows.size === 0` dispatch (line 222): the single
synthetic group always has map size 1; GROUP BY with no input rows leaves
the map empty. -/
def groupsOf (g : Grouping) : Option (List (List Row)) :=
  match g with
  | Grouping.noGroups => none
  | Grouping.single rows => some [rows]
  | Grouping.buckets bs => if bs.isEmpty then none else some (bs.map (fun p => p.2))

/-- `applySelectAndHaving` (src/src/processor/select.processor.ts lines
169-253); also returns the scope list extended with the `::alias` keys
(lines 182-186). -/
def applySelectAndHaving (sv : Server) (cols : List SelectColumn)
    (having : Option Expr) (d : Bool) (rows : List Row) (g : Grouping)
    (scope : List String) : Except RunErr (List Row × List String) := do
  let rows := injectIfEmpty cols rows
  let scope := scope ++ cols.filterMap (fun c =>
    match c with
    | SelectColumn.star _ => none
    | SelectColumn.expr _ _ (some a) => some ("::" ++ a)
    | SelectColumn.expr _ _ none => none)
  let out ←
    match groupsOf g with
    | none => selectUngrouped sv cols having rows
    | some gs => selectGrouped sv cols having gs
  Except.ok (applyDistinct d out, scope)

/-- `applyLimit` (src/src/processor/select.processor.ts lines 255-262):
`filter((_, i) => i >= offset)` when the offset is truthy, then in-place
truncation to `limit` when the limit is truthy and exceeded. -/
def applyLimit (limit offset : Nat) (rows : List Row) : List Row :=
  let rows :=
    if offset ≠ 0 then ((rows.enum.filter (fun p => offset ≤ p.1)).map (fun p => p.2))
    else rows
  if limit ≠ 0 ∧ rows.length > limit then rows.take limit else rows

/-- The pipeline through `applyOrderBy` (the first four stages of
`process`, src/src/processor/select.processor.ts lines 17-22). -/
def throughOrderBy (sv : Server) (q : SelectQuery) :
    Except RunErr (List Row × Grouping × List String) := do
  let (rows, scope) ← applyFromAll sv q.fromList
  let rows ← applyWhere sv q.whereClause rows
  let g ← applyGroupBy sv q.groupBy q.columns rows
  let (rows, g) ← applyOrderBy sv q.orderBy rows g
  Except.ok (rows, g, scope)

/-- `process` (src/src/processor/select.processor.ts lines 17-26): the six
stages in order, returning the final rows. -/
def process (sv : Server) (q : SelectQuery) : Except RunErr (List Row) := do
  let (rows, g, scope) ← throughOrderBy sv q
  let (rows, _) ← applySelectAndHaving sv q.columns q.having q.distinct rows g scope
  Except.ok (applyLimit q.limit q.offset rows)

/-- Modelled from the spec: the query-runner evaluator used by the insert
processor (constructed with the scope list
`columnDefinitions.map(c => table::name)`,
src/src/query-runner/insert.processor.ts lines 17-20).  Literals evaluate
to themselves; a table-qualified column reference resolves through the
scope list and then reads the row, yielding the JavaScript `undefined`
(`vundef`) when the row lacks the key.  Other expression forms are outside
the modelled insert fragment; no claim evaluates them. -/
def qrEval (scope : List String) (e : Expr) (row : Row) : Except String Value :=
  match e with
  | Expr.num n => Except.ok (Value.vint n)
  | Expr.str s => Except.ok (Value.vstr s)
  | Expr.bool b => Except.ok (Value.vbool b)
  | Expr.null => Except.ok Value.vnull
  | Expr.column_ref (some t) c =>
    let key := t ++ "::" ++ c
    if scope.contains key then Except.ok ((rowLookup row key).getD Value.vundef)
    else Except.error ("Unknown column '" ++ t ++ "." ++ c ++ "'")
  | _ => Except.error "expression is outside the modelled insert fragment"

/-- The INSERT summary `{affectedRows, insertId}`
(src/src/query-runner/insert.processor.ts line 81). -/
structure Summary where
  affectedRows : Nat
  insertId : Value
deriving DecidableEq, Repr

/-- `evaluateDefaultValue` (src/src/query-runner/insert.processor.ts
lines 29-38): auto-increment integer columns consume the table counter;
otherwise a present default expression is evaluated against the partially
built row; otherwise null. -/
def evaluateDefaultValue (scope : List String) (c : Column) (t : Table)
    (row : Row) : Table × Except String Value :=
  if c.isAutoIncrementInteger then
    let (v, t') := t.nextAutoIncrement
    (t', Except.ok (Value.vint v))
  else
    match c.defaultValue with
    | some d => (t, qrEval scope d row)
    | none => (t, Except.ok Value.vnull)

/-- The per-column value resolution of the final row
(src/src/query-runner/insert.processor.ts line 58):
`evaluator.evaluateExpression(columnRef, rawRow) ?? evaluateDefaultValue(c, rawRow)`;
the `??` falls through on both `null` and `undefined`. -/
def resolveColumnValue (scope : List String) (tname : String) (c : Column)
    (t : Table) (raw : Row) : Table × Except String Value :=
  match qrEval scope (Expr.column_ref (some tname) c.name) raw with
  | Except.error msg => (t, Except.error msg)
  | Except.ok v =>
    if v = Value.vnull ∨ v = Value.vundef then evaluateDefaultValue scope c t raw
    else (t, Except.ok v)

/-- `expression.type === 'default'`
(src/src/query-runner/insert.processor.ts line 48). -/
def isDefaultExpr (e : Expr) : Bool :=
  match e with
  | Expr.dflt => true
  | _ => false

/-- One VALUES expression of the rawRow reduce
(src/src/query-runner/insert.processor.ts lines 46-51): an explicit
DEFAULT marker invokes `evaluateDefaultValue` on the named column (an
unknown name raises the field-list error of `getColumnDefinition`), any
other expression is evaluated against the partial row. -/
def rawValueOf (scope : List String) (colDefs : List Column) (e : Expr)
    (cn : String) (acc : Row) (t : Table) : Table × Except RunErr Value :=
  if isDefaultExpr e then
    match colDefs.find? (fun c => c.name == cn) with
    | none =>
      (t, Except.error (RunErr.processor ("Unknown column '" ++ cn ++ "' in 'field list'")))
    | some c =>
      match evaluateDefaultValue scope c t acc with
      | (t', Except.error msg) => (t', Except.error (RunErr.evaluator msg))
      | (t', Except.ok v) => (t', Except.ok v)
  else
    match qrEval scope e acc with
    | Except.error msg => (t, Except.error (RunErr.evaluator msg))
    | Except.ok v => (t, Except.ok v)

def buildRawRow (scope : List String) (tname : String) (colDefs : List Column) :
    List (Expr × String) → Row → Table → Table × Except RunErr Row
  | [], acc, t => (t, Except.ok acc)
  | (e, cn) :: rest, acc, t =>
    match rawValueOf scope colDefs e cn acc t with
    | (t', Except.error err) => (t', Except.error err)
    | (t', Except.ok v) =>
      buildRawRow scope tname colDefs rest (rowSet acc (tname ++ "::" ++ cn) v) t'

/-- The final-row construction (src/src/query-runner/insert.processor.ts
lines 52-76): resolve each declared column's value, enforce non-null,
capture the auto-increment column's value as `insertId`, cast; cast
errors coded `OUT_OF_RANGE_VALUE` or `INCORRECT_INTEGER_VALUE` are
rewritten to append ` at row i+1`, other cast errors propagate raw. -/
def buildFinalRowAux (scope : List String) (tname : String) (raw : Row)
    (rowIndex : Nat) :
    List Column → Table → Value → Row → Table × Except RunErr (Row × Value)
  | [], t, insId, acc => (t, Except.ok (acc, insId))
  | c :: cs, t, insId, acc =>
    match resolveColumnValue scope tname c t raw with
    | (t', Except.error msg) => (t', Except.error (RunErr.evaluator msg))
    | (t', Except.ok v) =>
      if v = Value.vnull ∧ c.nullable = false then
        (t', Except.error (RunErr.processor ("Field '" ++ c.name ++ "' doesn't have a default value")))
      else
        let insId := if c.isAutoIncrementInteger then v else insId
        match c.cast v with
        | Except.ok v' =>
          buildFinalRowAux scope tname raw rowIndex cs t' insId (rowSet acc c.name v')
        | Except.error ce =>
          if ce.code = "OUT_OF_RANGE_VALUE" ∨ ce.code = "INCORRECT_INTEGER_VALUE" then
            (t', Except.error (RunErr.processor (ce.msg ++ " at row " ++ toString (rowIndex + 1))))
          else
            (t', Except.error (RunErr.cast ce.code ce.msg))

/-- Process one VALUES row (the body of the `forEach` at
src/src/query-runner/insert.processor.ts lines 42-76): column-count
check, rawRow construction, final-row construction. -/
def insertOne (tname : String) (colDefs : List Column)
    (insertCols : List String) (t : Table) (vals : List Expr)
    (rowIndex : Nat) (insId : Value) : Table × Except RunErr (Row × Value) :=
  if vals.length ≠ insertCols.length then
    (t, Except.error (RunErr.processor
      ("Column count doesn't match value count at row " ++ toString (rowIndex + 1))))
  else
    let scope := colDefs.map (fun c => tname ++ "::" ++ c.name)
    match buildRawRow scope tname colDefs (vals.zip insertCols) [] t with
    | (t', Except.error e) => (t', Except.error e)
    | (t', Except.ok raw) => buildFinalRowAux scope tname raw rowIndex colDefs t' insId []

/-- The row loop of `InsertProcessor.process`
(src/src/query-runner/insert.processor.ts lines 42-79): rows are
committed one by one; the first error aborts, leaving every earlier row
inserted. -/
def runRows (tname : String) (colDefs : List Column) (insertCols : List String) :
    List (List Expr) → Nat → Table → Value → Nat →
      Table × Value × Nat × Option RunErr
  | [], _, t, insId, af => (t, insId, af, none)
  | vs :: rest, i, t, insId, af =>
    match insertOne tname colDefs insertCols t vs i insId with
    | (t', Except.error e) => (t', insId, af, some e)
    | (t', Except.ok (row, insId')) =>
      runRows tname colDefs insertCols rest (i + 1) (t'.insertRow row) insId' (af + 1)

/-- `InsertProcessor.process` (src/src/query-runner/insert.processor.ts
lines 10-82) at the level of the already-resolved target table: the
returned table carries every row inserted before a failure; on full
success the summary is `{affectedRows, insertId}` with `insertId`
initialised to 0. -/
def processInsert (t : Table) (q : InsertQuery) : Table × Except RunErr Summary :=
  let colDefs := t.columns
  let insertCols := q.columns.getD (colDefs.map (fun c => c.name))
  match runRows q.table colDefs insertCols q.values 0 t (Value.vint 0) 0 with
  | (t', _, _, some e) => (t', Except.error e)
  | (t', insId, af, none) => (t', Except.ok ⟨af, insId⟩)

/-- The limit clause of a parsed AST as consumed by `SelectQuery.fromAst`
(src/src/parser/select-query.ts lines 69-77): a separator string and the
numeric values in source order. -/
structure AstLimit where
  seperator : String
  value : List Int
deriving DecidableEq, Repr

/-- The limit/offset extraction of `SelectQuery.fromAst`
(src/src/parser/select-query.ts lines 69-77), returning the
`(limit, offset)` pair: one value is a bare limit; two values separated
by `,` are `(offset, limit)`; two values separated by `offset` are
`(limit, offset)`. -/
def limitOffsetFromAst (l : Option AstLimit) : Int × Int :=
  match l with
  | none => (0, 0)
  | some lim =>
    if lim.value.length = 1 then (lim.value.headD 0, 0)
    else if lim.value.length = 2 ∧ lim.seperator = "," then
      match lim.value with
      | [a, b] => (b, a)
      | _ => (0, 0)
    else if lim.value.length = 2 ∧ lim.seperator = "offset" then
      match lim.value with
      | [a, b] => (a, b)
      | _ => (0, 0)
    else (0, 0)

/-! Concrete fixtures used by witnesses and counterexamples. -/

/-- `id INT UNSIGNED AUTO_INCREMENT` (NOT NULL, as MySQL implies for
auto-increment columns). -/
def colIdAI : Column := ⟨"id", false, none, ColumnKind.int true true⟩

/-- `name VARCHAR(3) NOT NULL`. -/
def colName3 : Column := ⟨"name", false, none, ColumnKind.varchar 3⟩

/-- The freshly created table `t(id INT UNSIGNED AUTO_INCREMENT,
name VARCHAR(3) NOT NULL)`. -/
def tableT2 : Table := ⟨[colIdAI, colName3], [], 1⟩

/-- `INSERT INTO t (name) VALUES ('ok'),('toolong')`. -/
def insertQ2 : InsertQuery := ⟨none, "t", some ["name"], [[Expr.str "ok"], [Expr.str "toolong"]]⟩

/-- `INSERT INTO t (name) VALUES ('a'),('b')`. -/
def insertQ3 : InsertQuery := ⟨none, "t", some ["name"], [[Expr.str "a"], [Expr.str "b"]]⟩

/-- `INSERT INTO t (id, name) VALUES (NULL,'a'),(7,'b')`: the
auto-increment column is listed explicitly, with a NULL that falls back
to the counter in row 1 and an explicit value in row 2. -/
def insertQC3 : InsertQuery :=
  ⟨none, "t", some ["id", "name"],
    [[Expr.null, Expr.str "a"], [Expr.num 7, Expr.str "b"]]⟩

/-- A nullable VARCHAR(5) column `k` with default expression `NULL`. -/
def colKDefNull : Column := ⟨"k", true, some Expr.null, ColumnKind.varchar 5⟩

/-- A table with the single column `k`. -/
def tableK10 : Table := ⟨[colKDefNull], [], 1⟩

/-- `INSERT INTO t (k) VALUES (NULL)`. -/
def insertQ10 : InsertQuery := ⟨none, "t", some ["k"], [[Expr.null]]⟩

/-- An empty table `t(id INT)`. -/
def tableEmptyT : Table := ⟨[⟨"id", true, none, ColumnKind.int false false⟩], [], 1⟩

/-- A server whose current database `mydb` holds the empty table `t`. -/
def svC4 : Server := ⟨"mydb", [("t", tableEmptyT)]⟩

/-- `SELECT id FROM t HAVING id > 0`. -/
def qC4 : SelectQuery :=
  ⟨[⟨none, "t", none, none, none⟩],
   [SelectColumn.expr (Expr.column_ref none "id") "id" none],
   none, [],
   some (Expr.binary_expression ">" (Expr.column_ref none "id") (Expr.num 0)),
   [], 0, 0, false⟩

/-- A server with no tables whose current database is `mydb`. -/
def svC6 : Server := ⟨"mydb", []⟩

/-- `SELECT database()` — no alias, column text `database()` as generated
by `SelectQuery.fromAst` (src/src/parser/select-query.ts lines 50-58). -/
def qC6 : SelectQuery :=
  ⟨[], [SelectColumn.expr (Expr.func "database" [] false) "database()" none],
   none, [], none, [], 0, 0, false⟩

/-- `users u` rows re-keyed by `applyFrom`: a single user with id 3. -/
def rowsAC5 : List Row := [[("u::id", Value.vint 3)]]

/-- `ON p.user_id = u.id`. -/
def onC5 : Expr :=
  Expr.binary_expression "=" (Expr.column_ref (some "p") "user_id")
    (Expr.column_ref (some "u") "id")

/-- The qualified keys of the empty right side `posts p`. -/
def colsC5 : List String := ["p::user_id", "p::body"]

/-- A table `t(id INT)` with rows id=1 and id=2. -/
def tableT9 : Table :=
  ⟨[⟨"id", true, none, ColumnKind.int false false⟩],
   [[("id", Value.vint 1)], [("id", Value.vint 2)]], 1⟩

/-- A server whose current database `mydb` holds `tableT9` as `t`. -/
def svC9 : Server := ⟨"mydb", [("t", tableT9)]⟩

/-- `SELECT count(*) c, id + 1 x FROM t ORDER BY id DESC` — single-group
aggregate mode (no GROUP BY, aggregate present, no bare column_ref
column). -/
def qC9 : SelectQuery :=
  ⟨[⟨none, "t", none, none, none⟩],
   [SelectColumn.expr (Expr.func "count" [Expr.star none] false) "count()" (some "c"),
    SelectColumn.expr
      (Expr.binary_expression "+" (Expr.column_ref none "id") (Expr.num 1)) "" (some "x")],
   none, [], none, [⟨none, "id", "DESC"⟩], 0, 0, false⟩

/-- `SELECT count(*) c FROM t GROUP BY id ORDER BY id DESC`. -/
def qC9w : SelectQuery :=
  ⟨[⟨none, "t", none, none, none⟩],
   [SelectColumn.expr (Expr.func "count" [Expr.star none] false) "count()" (some "c")],
   none, [Expr.column_ref none "id"], none, [⟨none, "id", "DESC"⟩], 0, 0, false⟩

/-- SELECT columns `count(*), u.id` — an aggregate plus a nonaggregated
column reference at 1-based position 2. -/
def colsC1w : List SelectColumn :=
  [SelectColumn.expr (Expr.func "count" [Expr.star none] false) "count()" none,
   SelectColumn.expr (Expr.column_ref (some "u") "id") "id" none]

/-! Helper lemmas. -/

theorem enumFrom_map_snd {α : Type} (l : List α) :
    ∀ n : Nat, (List.enumFrom n l).map (fun p => p.2) = l := by
  induction l with
  | nil => intro n; rfl
  | cons x xs ih => intro n; simp [List.enumFrom, ih]

theorem enumFrom_filter_le {α : Type} (l : List α) :
    ∀ n k : Nat, k ≤ n →
      (List.enumFrom n l).filter (fun p => k ≤ p.1) = List.enumFrom n l := by
  induction l with
  | nil => intro n k _; rfl
  | cons x xs ih =>
    intro n k hk
    simp only [List.enumFrom, List.filter_cons]
    rw [if_pos (by simpa using hk), ih (n + 1) k (le_trans hk (Nat.le_succ n))]

theorem enumFrom_filter_map_drop {α : Type} (l : List α) :
    ∀ n off : Nat,
      ((List.enumFrom n l).filter (fun p => n + off ≤ p.1)).map (fun p => p.2) =
        l.drop off := by
  induction l with
  | nil => intro n off; simp
  | cons x xs ih =>
    intro n off
    cases off with
    | zero =>
      simp only [List.enumFrom, List.filter_cons]
      rw [if_pos (by simp)]
      rw [enumFrom_filter_le xs (n + 1) (n + 0) (by omega)]
      simp [enumFrom_map_snd]
    | succ k =>
      simp only [List.enumFrom, List.filter_cons]
      rw [if_neg (by simp)]
      have := ih (n + 1) k
      rw [show n + (k + 1) = n + 1 + k by omega]
      simpa using this

/-! Claims. -/

/-- C7: the LIMIT stage first drops the first `offset` rows and then,
when the limit is non-zero, truncates the remainder to at most `limit`
rows, so the output row count is at most `limit` whenever `limit > 0`,
and it is never negative. -/
theorem c7_apply_limit (limit offset : Nat) (rows : List Row) :
    applyLimit limit offset rows =
      (if limit = 0 then rows.drop offset else (rows.drop offset).take limit) ∧
    (0 < limit → (applyLimit limit offset rows).length ≤ limit) ∧
    0 ≤ (applyLimit limit offset rows).length := by
  have hdrop :
      (if offset ≠ 0 then
        ((rows.enum.filter (fun p => offset ≤ p.1)).map (fun p => p.2))
      else rows) = rows.drop offset := by
    by_cases h : offset = 0
    · simp [h]
    · rw [if_pos h]
      have := enumFrom_filter_map_drop rows 0 offset
      simpa [List.enum] using this
  have hmain : applyLimit limit offset rows =
      (if limit = 0 then rows.drop offset else (rows.drop offset).take limit) := by
    unfold applyLimit
    rw [hdrop]
    by_cases hl : limit = 0
    · simp [hl]
    · rw [if_neg hl]
      by_cases hlen : (rows.drop offset).length > limit
      · rw [if_pos ⟨hl, hlen⟩]
      · rw [if_neg (by tauto)]
        rw [List.take_of_length_le (by omega)]
  refine ⟨hmain, ?_, Nat.zero_le _⟩
  intro hpos
  rw [hmain, if_neg (by omega)]
  exact le_trans (List.length_take_le _ _) (le_refl _)

/-- C7 witness: three rows, offset 1, limit 2. -/
theorem c7_apply_limit_witness :
    0 < 2 ∧
    applyLimit 2 1 [[("a", Value.vint 1)], [("a", Value.vint 2)], [("a", Value.vint 3)]] =
      [[("a", Value.vint 2)], [("a", Value.vint 3)]] ∧
    (applyLimit 2 1 [[("a", Value.vint 1)], [("a", Value.vint 2)], [("a", Value.vint 3)]]).length ≤ 2 := by
  refine ⟨by decide, by decide, ?_⟩
  exact (c7_apply_limit 2 1 [[("a", Value.vint 1)], [("a", Value.vint 2)], [("a", Value.vint 3)]]).2.1
    (by decide)

/-- C8: for all integers `a` and `b`, a parsed limit clause with two
values and separator `,` in order `(a, b)` and one with separator
`offset` in order `(b, a)` both produce the pair `(limit, offset) =
(b, a)`, so `LIMIT a, b` and `LIMIT b OFFSET a` are executed
identically. -/
theorem c8_limit_comma_offset_equiv (a b : Int) :
    limitOffsetFromAst (some ⟨",", [a, b]⟩) = (b, a) ∧
    limitOffsetFromAst (some ⟨"offset", [b, a]⟩) = (b, a) ∧
    limitOffsetFromAst (some ⟨",", [a, b]⟩) =
      limitOffsetFromAst (some ⟨"offset", [b, a]⟩) := by
  refine ⟨rfl, rfl, rfl⟩

theorem firstColumnRefData_cons_of_not (c0 : SelectColumn)
    (rest : List SelectColumn) (k : Nat) (h : isColumnRefColumn c0 = false) :
    firstColumnRefData (c0 :: rest) k = firstColumnRefData rest (k + 1) := by
  cases c0 with
  | star t => rfl
  | expr e col al =>
    cases e <;> simp_all [isColumnRefColumn, firstColumnRefData]

theorem firstColumnRefData_cons_of_ref (rest : List SelectColumn) (k : Nat)
    (t : Option String) (cn : String) (col : String) (al : Option String) :
    firstColumnRefData (SelectColumn.expr (Expr.column_ref t cn) col al :: rest) k =
      some (k, t, cn) := rfl

theorem isColumnRefColumn_shape (c : SelectColumn)
    (h : isColumnRefColumn c = true) :
    ∃ t cn col al, c = SelectColumn.expr (Expr.column_ref t cn) col al := by
  cases c with
  | star t => simp [isColumnRefColumn] at h
  | expr e col al =>
    cases e <;> simp_all [isColumnRefColumn]

theorem firstColumnRefData_none_iff (cols : List SelectColumn) :
    ∀ k, firstColumnRefData cols k = none ↔
      ∀ c ∈ cols, isColumnRefColumn c = false := by
  induction cols with
  | nil => intro k; simp [firstColumnRefData]
  | cons c0 rest ih =>
    intro k
    by_cases h : isColumnRefColumn c0 = true
    · obtain ⟨t, cn, col, al, rfl⟩ := isColumnRefColumn_shape c0 h
      rw [firstColumnRefData_cons_of_ref]
      simp [h]
    · rw [firstColumnRefData_cons_of_not c0 rest k (by simpa using h)]
      rw [ih (k + 1)]
      constructor
      · intro hall c hc
        rcases List.mem_cons.mp hc with hc1 | hc1
        · subst hc1; simpa using h
        · exact hall c hc1
      · intro hall c hc
        exact hall c (List.mem_cons_of_mem _ hc)

theorem firstColumnRefData_spec (cols : List SelectColumn) :
    ∀ k i t c, firstColumnRefData cols k = some (i, t, c) →
      k ≤ i ∧
      (∃ ct al, cols.get? (i - k) =
        some (SelectColumn.expr (Expr.column_ref t c) ct al)) ∧
      (∀ j, j < i - k → ∀ d, cols.get? j = some d →
        isColumnRefColumn d = false) := by
  induction cols with
  | nil => intro k i t c h; simp [firstColumnRefData] at h
  | cons c0 rest ih =>
    intro k i t c h
    by_cases h0 : isColumnRefColumn c0 = true
    · obtain ⟨t', cn', col', al', rfl⟩ := isColumnRefColumn_shape c0 h0
      rw [firstColumnRefData_cons_of_ref] at h
      obtain ⟨hk, ht, hc⟩ : k = i ∧ t' = t ∧ cn' = c := by
        simpa using h
      subst hk; subst ht; subst hc
      refine ⟨le_refl _, ⟨col', al', by simp⟩, ?_⟩
      intro j hj d hd
      omega
    · rw [firstColumnRefData_cons_of_not c0 rest k (by simpa using h0)] at h
      obtain ⟨hle, ⟨ct, al, hget⟩, hprev⟩ := ih (k + 1) i t c h
      refine ⟨by omega, ⟨ct, al, ?_⟩, ?_⟩
      · rw [show i - k = (i - (k + 1)) + 1 by omega]
        simpa using hget
      · intro j hj d hd
        cases j with
        | zero =>
          simp at hd
          subst hd
          simpa using h0
        | succ j' =>
          have : j' < i - (k + 1) := by omega
          exact hprev j' this d (by simpa using hd)

/-- C1: with an empty GROUP BY list, the GROUP BY stage skips when no
aggregate function (count, sum, min, max, avg) appears among the SELECT
columns; otherwise, when a non-aggregated `column_ref` column exists, it
fails with exactly `In aggregated query without GROUP BY, expression #N
of SELECT list contains nonaggregated column 'x'` where `N` is the
1-based position of the first such column and `x` its possibly
table-qualified name; otherwise all rows form a single synthetic
group. -/
theorem c1_group_by_empty (sv : Server) (cols : List SelectColumn)
    (rows : List Row) :
    (hasAggregateFunction cols = false →
      applyGroupBy sv [] cols rows = Except.ok Grouping.noGroups) ∧
    (hasAggregateFunction cols = true →
      ∀ i t c, firstColumnRefData cols 0 = some (i, t, c) →
        applyGroupBy sv [] cols rows =
          Except.error (RunErr.processor
            ("In aggregated query without GROUP BY, expression #" ++
              toString (i + 1) ++
              " of SELECT list contains nonaggregated column '" ++
              nonAggregatedColumnName t c ++ "'")) ∧
        (∃ ct al, cols.get? i =
          some (SelectColumn.expr (Expr.column_ref t c) ct al)) ∧
        (∀ j, j < i → ∀ d, cols.get? j = some d →
          isColumnRefColumn d = false)) ∧
    (hasAggregateFunction cols = true → firstColumnRefData cols 0 = none →
      applyGroupBy sv [] cols rows = Except.ok (Grouping.single rows)) ∧
    ((∃ c ∈ cols, isColumnRefColumn c = true) ↔
      firstColumnRefData cols 0 ≠ none) ∧
    (hasAggregateFunction cols = true ↔
      ∃ c ∈ cols, isAggregateFunctionColumn c = true) := by
  refine ⟨?_, ?_, ?_, ?_, ?_⟩
  · intro h
    simp [applyGroupBy, h]
  · intro h i t c hfst
    have hspec := firstColumnRefData_spec cols 0 i t c hfst
    refine ⟨?_, by simpa using hspec.2.1, ?_⟩
    · simp only [applyGroupBy, List.isEmpty_nil, if_true, h]
      rw [if_neg (by simp [h]), hfst]
      rfl
    · intro j hj d hd
      exact hspec.2.2 j (by omega) d hd
  · intro h hnone
    simp only [applyGroupBy, List.isEmpty_nil, if_true]
    rw [if_neg (by simp [h]), hnone]
  · rw [← not_iff_not]
    push_neg
    rw [firstColumnRefData_none_iff cols 0]
    constructor
    · intro hall c hc
      have := hall c hc
      simpa using this
    · intro hall c hc
      have := hall c hc
      simpa using this
  · simp [hasAggregateFunction, List.any_eq_true]

/-- C1 witness: `SELECT count(*), u.id` with no GROUP BY raises the
nonaggregated-column error naming expression #2 and column `u.id`. -/
theorem c1_group_by_empty_witness :
    hasAggregateFunction colsC1w = true ∧
    firstColumnRefData colsC1w 0 = some (1, some "u", "id") ∧
    applyGroupBy svC6 [] colsC1w [] =
      Except.error (RunErr.processor
        ("In aggregated query without GROUP BY, expression #2 of SELECT " ++
          "list contains nonaggregated column 'u.id'")) := by
  refine ⟨by decide, by decide, ?_⟩
  have h := ((c1_group_by_empty svC6 colsC1w []).2.1 (by decide)
    1 (some "u") "id" (by decide)).1
  simpa [nonAggregatedColumnName] using h

/-- C4: with an empty incoming row set, exactly one empty input row is
injected at the SELECT/HAVING stage if and only if some SELECT column is
a function, binary expression, literal, CASE or scalar sub-query; when
every SELECT column is a column_ref or star no row is injected, and in
particular `SELECT id FROM t HAVING id > 0` on the empty table `t`
returns the empty result. -/
theorem c4_empty_row_injection (cols : List SelectColumn) :
    (injectIfEmpty cols [] = [([] : Row)] ↔
      ∃ c ∈ cols, (isFunctionColumn c = true ∨ isExpressionColumn c = true ∨
        isPrimitiveColumn c = true ∨ isCaseColumn c = true ∨
        isSubSelectColumn c = true)) ∧
    ((∀ c ∈ cols, isColumnRefColumn c = true ∨ isStarColumn c = true) →
      injectIfEmpty cols [] = []) ∧
    process svC4 qC4 = Except.ok [] := by
  have hiff : shouldInjectEmptyRow cols = true ↔
      ∃ c ∈ cols, (isFunctionColumn c = true ∨ isExpressionColumn c = true ∨
        isPrimitiveColumn c = true ∨ isCaseColumn c = true ∨
        isSubSelectColumn c = true) := by
    simp only [shouldInjectEmptyRow, Bool.or_eq_true, List.any_eq_true]
    constructor
    · rintro ((((⟨c, hc, hp⟩ | ⟨c, hc, hp⟩) | ⟨c, hc, hp⟩) | ⟨c, hc, hp⟩) | ⟨c, hc, hp⟩)
      exacts [⟨c, hc, Or.inl hp⟩, ⟨c, hc, Or.inr (Or.inl hp)⟩,
        ⟨c, hc, Or.inr (Or.inr (Or.inl hp))⟩,
        ⟨c, hc, Or.inr (Or.inr (Or.inr (Or.inl hp)))⟩,
        ⟨c, hc, Or.inr (Or.inr (Or.inr (Or.inr hp)))⟩]
    · rintro ⟨c, hc, (hp | hp | hp | hp | hp)⟩
      exacts [Or.inl (Or.inl (Or.inl (Or.inl ⟨c, hc, hp⟩))),
        Or.inl (Or.inl (Or.inl (Or.inr ⟨c, hc, hp⟩))),
        Or.inl (Or.inl (Or.inr ⟨c, hc, hp⟩)),
        Or.inl (Or.inr ⟨c, hc, hp⟩),
        Or.inr ⟨c, hc, hp⟩]
  refine ⟨?_, ?_, by rfl⟩
  · by_cases hs : shouldInjectEmptyRow cols = true
    · constructor
      · intro _; exact hiff.mp hs
      · intro _; simp [injectIfEmpty, hs]
    · have hsf : shouldInjectEmptyRow cols = false := by
        revert hs; cases shouldInjectEmptyRow cols <;> simp
      constructor
      · intro h
        simp [injectIfEmpty, hsf] at h
      · intro h
        exact absurd (hiff.mpr h) hs
  · intro hall
    have hs : shouldInjectEmptyRow cols = false := by
      by_contra hs
      have hs' : shouldInjectEmptyRow cols = true := by
        revert hs; cases shouldInjectEmptyRow cols <;> simp
      rw [hiff] at hs'
      obtain ⟨c, hc, hp⟩ := hs'
      rcases hall c hc with h | h
      · obtain ⟨t, cn, col, al, rfl⟩ := isColumnRefColumn_shape c h
        rcases hp with hp | hp | hp | hp | hp <;>
          simp [isFunctionColumn, isExpressionColumn, isPrimitiveColumn,
            isCaseColumn, isSubSelectColumn] at hp
      · cases c with
        | star t =>
          rcases hp with hp | hp | hp | hp | hp <;>
            simp [isFunctionColumn, isExpressionColumn, isPrimitiveColumn,
              isCaseColumn, isSubSelectColumn] at hp
        | expr e col al => simp [isStarColumn] at h
    simp [injectIfEmpty, hs]

/-- C4 witness: a literal SELECT column triggers the injection, a pure
column_ref list does not. -/
theorem c4_empty_row_injection_witness :
    injectIfEmpty [SelectColumn.expr (Expr.num 1) "1" none] [] = [([] : Row)] ∧
    injectIfEmpty [SelectColumn.expr (Expr.column_ref none "id") "id" none] [] =
      ([] : List Row) := by
  constructor
  · exact (c4_empty_row_injection
      [SelectColumn.expr (Expr.num 1) "1" none]).1.mpr
      ⟨SelectColumn.expr (Expr.num 1) "1" none, by simp,
        Or.inr (Or.inr (Or.inl (by decide)))⟩
  · exact (c4_empty_row_injection
      [SelectColumn.expr (Expr.column_ref none "id") "id" none]).2.1
      (by intro c hc; simp at hc; subst hc; exact Or.inl (by decide))

theorem exceptBind_ok {ε α β : Type} (a : α) (f : α → Except ε β) :
    (Except.ok a : Except ε α) >>= f = f a := rfl

theorem exceptBind_err {ε α β : Type} (e : ε) (f : α → Except ε β) :
    (Except.error e : Except ε α) >>= f = Except.error e := rfl

/-- C6 counterexample: `SELECT database()` with current database `mydb`
does not return a row keyed `database`: `mapRow` keys the output by
`c.alias || c.column` and `fromAst` generates the column text
`database()` with no alias, so the single key is `database()`. -/
theorem c6_database_counterexample :
    process svC6 qC6 ≠ Except.ok [[("database", Value.vstr "mydb")]] := by
  have h : process svC6 qC6 = Except.ok [[("database()", Value.vstr "mydb")]] := by
    simp [process, throughOrderBy, applyFromAll, applyWhere, applyGroupBy,
      applyOrderBy, applySelectAndHaving, selectUngrouped, mapRowColumns,
      evaluate, checkIfKeep, groupsOf, qC6, svC6, exceptBind_ok,
      hasAggregateFunction, isAggregateFunctionColumn, aggregateNames,
      injectIfEmpty, shouldInjectEmptyRow, isFunctionColumn, isExpressionColumn,
      isPrimitiveColumn, isCaseColumn, isSubSelectColumn, applyDistinct,
      applyLimit, rowSet]
  rw [h]
  simp

/-- C6 amended: `SELECT database()` (no FROM, no alias) against a server
whose current database is `mydb` returns exactly one output row whose
single key is the generated column text `database()`, mapped to the
string `mydb`. -/
theorem c6_database_amended :
    process svC6 qC6 = Except.ok [[("database()", Value.vstr "mydb")]] := by
  simp [process, throughOrderBy, applyFromAll, applyWhere, applyGroupBy,
    applyOrderBy, applySelectAndHaving, selectUngrouped, mapRowColumns,
    evaluate, checkIfKeep, groupsOf, qC6, svC6, exceptBind_ok,
    hasAggregateFunction, isAggregateFunctionColumn, aggregateNames,
    injectIfEmpty, shouldInjectEmptyRow, isFunctionColumn, isExpressionColumn,
    isPrimitiveColumn, isCaseColumn, isSubSelectColumn, applyDistinct,
    applyLimit, rowSet]

theorem rowLookup_rowSet (r : Row) (k k' : String) (v : Value) :
    rowLookup (rowSet r k v) k' = if k' = k then some v else rowLookup r k' := by
  induction r with
  | nil =>
    by_cases h : k' = k
    · simp [rowSet, rowLookup, h]
    · have h' : ¬ k = k' := fun e => h e.symm
      simp [rowSet, rowLookup, h, h']
  | cons p rest ih =>
    by_cases hp : p.1 = k
    · by_cases h : k' = k
      · simp [rowSet, rowLookup, hp, h]
      · have h' : ¬ k = k' := fun e => h e.symm
        have hpk' : ¬ p.1 = k' := by rw [hp]; exact h'
        simp [rowSet, rowLookup, hp, h, h', hpk']
    · by_cases hpk' : p.1 = k'
      · have h : ¬ k' = k := by rw [← hpk']; exact hp
        simp [rowSet, rowLookup, hp, hpk', h]
      · simp [rowSet, rowLookup, hp, hpk', ih]

theorem mergeRow_cons (a : Row) (p : String × Value) (b : Row) :
    mergeRow a (p :: b) = mergeRow (rowSet a p.1 p.2) b := rfl

theorem rowLookup_mergeRow_of_none (b : Row) :
    ∀ a k, rowLookup b k = none → rowLookup (mergeRow a b) k = rowLookup a k := by
  induction b with
  | nil => intro a k _; rfl
  | cons p rest ih =>
    intro a k h
    have hp : ¬ p.1 = k := by
      intro e
      simp [rowLookup, e] at h
    have hr : rowLookup rest k = none := by simpa [rowLookup, hp] using h
    rw [mergeRow_cons, ih _ k hr, rowLookup_rowSet]
    rw [if_neg (fun e => hp e.symm)]

theorem rowLookup_mergeRow_all_null (b : Row) :
    ∀ a k, (∀ p ∈ b, p.2 = Value.vnull) → rowLookup b k ≠ none →
      rowLookup (mergeRow a b) k = some Value.vnull := by
  induction b with
  | nil => intro a k _ hk; exact absurd rfl hk
  | cons p rest ih =>
    intro a k hall hk
    by_cases hr : rowLookup rest k = none
    · have hp : p.1 = k := by
        by_contra hp
        exact hk (by simp [rowLookup, hp, hr])
      rw [mergeRow_cons, rowLookup_mergeRow_of_none rest _ k hr, rowLookup_rowSet]
      rw [if_pos hp.symm, hall p (List.mem_cons_self _ _)]
    · exact ih _ k (fun q hq => hall q (List.mem_cons_of_mem _ hq)) hr

theorem mem_rowSet (k : String) (v : Value) :
    ∀ r : Row, ∀ p ∈ rowSet r k v, p ∈ r ∨ p = (k, v) := by
  intro r
  induction r with
  | nil => intro p hp; simp [rowSet] at hp; exact Or.inr hp
  | cons q rest ih =>
    intro p hp
    by_cases hq : q.1 = k
    · simp only [rowSet, if_pos hq] at hp
      rcases List.mem_cons.mp hp with h | h
      · exact Or.inr h
      · exact Or.inl (List.mem_cons_of_mem _ h)
    · simp only [rowSet, if_neg hq] at hp
      rcases List.mem_cons.mp hp with h | h
      · exact Or.inl (by simp [h])
      · rcases ih p h with h' | h'
        · exact Or.inl (List.mem_cons_of_mem _ h')
        · exact Or.inr h'

theorem placeholderOf_entries (cols : List String) :
    ∀ p ∈ placeholderOf cols, p.2 = Value.vnull := by
  have main : ∀ cs : List String, ∀ acc : Row, (∀ p ∈ acc, p.2 = Value.vnull) →
      ∀ p ∈ cs.foldl (fun acc k => rowSet acc k Value.vnull) acc, p.2 = Value.vnull := by
    intro cs
    induction cs with
    | nil => intro acc hacc p hp; exact hacc p hp
    | cons c rest ih =>
      intro acc hacc p hp
      refine ih (rowSet acc c Value.vnull) ?_ p hp
      intro q hq
      rcases mem_rowSet c Value.vnull acc q hq with h | h
      · exact hacc q h
      · rw [h]
  intro p hp
  exact main cols [] (by intro q hq; simp at hq) p hp

theorem placeholderOf_lookup (cols : List String) (k : String) (hk : k ∈ cols) :
    rowLookup (placeholderOf cols) k ≠ none := by
  have main : ∀ cs : List String, ∀ acc : Row,
      (k ∈ cs ∨ rowLookup acc k ≠ none) →
      rowLookup (cs.foldl (fun acc k => rowSet acc k Value.vnull) acc) k ≠ none := by
    intro cs
    induction cs with
    | nil =>
      intro acc h
      rcases h with h | h
      · simp at h
      · exact h
    | cons c rest ih =>
      intro acc h
      refine ih (rowSet acc c Value.vnull) ?_
      by_cases hck : k = c
      · right
        rw [rowLookup_rowSet, if_pos hck]
        simp
      · rcases h with h | h
        · rcases List.mem_cons.mp h with h' | h'
          · exact absurd h' hck
          · exact Or.inl h'
        · right
          rw [rowLookup_rowSet, if_neg hck]
          exact h
  exact main cols [] (Or.inl hk)

theorem mergeRow_placeholder_null (a : Row) (cols : List String) (k : String)
    (hk : k ∈ cols) :
    rowLookup (mergeRow a (placeholderOf cols)) k = some Value.vnull :=
  rowLookup_mergeRow_all_null (placeholderOf cols) a k
    (placeholderOf_entries cols) (placeholderOf_lookup cols k hk)

/-- The truthiness of evaluating the ON condition on a merged row, as
the filter of `joinRows` sees it. -/
def evalTruthyB (sv : Server) (e : Expr) (m : Row) : Bool :=
  match evaluate sv e m [] with
  | Except.ok v => truthy v
  | Except.error _ => false

theorem joinMatches_ok (sv : Server) (e : Expr) (a : Row) (rowsB : List Row)
    (hev : ∀ b ∈ rowsB, ∃ v, evaluate sv e (mergeRow a b) [] = Except.ok v) :
    joinMatches sv a rowsB (some e) =
      Except.ok ((rowsB.map (fun b => mergeRow a b)).filter (evalTruthyB sv e)) := by
  induction rowsB with
  | nil => rfl
  | cons b rest ih =>
    obtain ⟨v, hv⟩ := hev b (List.mem_cons_self _ _)
    have hrest := ih (fun b' hb' => hev b' (List.mem_cons_of_mem _ hb'))
    simp only [joinMatches, evalOn, hv, hrest, exceptBind_ok, List.map_cons,
      List.filter_cons]
    by_cases ht : truthy v
    · simp [evalTruthyB, hv, ht]
    · simp [evalTruthyB, hv, ht]

/-- C5: in a LEFT JOIN step whose ON condition evaluates successfully on
every merged row, each left row with matching right rows contributes
exactly those matches, and each left row with no match contributes
exactly one row — the left row merged with the null placeholder — in
which every right-side qualified key is bound to null. -/
theorem c5_left_join (sv : Server) (rowsA rowsB : List Row) (e : Expr)
    (cols : List String)
    (hev : ∀ a ∈ rowsA, ∀ b ∈ rowsB, ∃ v,
      evaluate sv e (mergeRow a b) [] = Except.ok v) :
    joinRows sv rowsA rowsB (some e) (some (placeholderOf cols)) =
      Except.ok (rowsA.flatMap (fun a =>
        let ms := (rowsB.map (fun b => mergeRow a b)).filter (evalTruthyB sv e)
        if ms.isEmpty then [mergeRow a (placeholderOf cols)] else ms)) ∧
    (∀ a : Row, ∀ k ∈ cols,
      rowLookup (mergeRow a (placeholderOf cols)) k = some Value.vnull) := by
  constructor
  · induction rowsA with
    | nil => rfl
    | cons a rest ih =>
      have ha := hev a (List.mem_cons_self _ _)
      have hrest := ih (fun a' ha' b hb => hev a' (List.mem_cons_of_mem _ ha') b hb)
      simp only [joinRows, joinMatches_ok sv e a rowsB ha, hrest, exceptBind_ok,
        List.flatMap_cons]
  · intro a k hk
    exact mergeRow_placeholder_null a cols k hk

/-- C5 witness: `users u` (one row, id 3) LEFT JOIN `posts p` (empty) ON
`p.user_id = u.id` yields one row with both posts keys null. -/
theorem c5_left_join_witness :
    joinRows svC6 rowsAC5 [] (some onC5) (some (placeholderOf colsC5)) =
      Except.ok [[("u::id", Value.vint 3), ("p::user_id", Value.vnull),
        ("p::body", Value.vnull)]] ∧
    rowLookup (mergeRow [("u::id", Value.vint 3)] (placeholderOf colsC5))
      "p::user_id" = some Value.vnull := by
  have h := c5_left_join svC6 rowsAC5 [] onC5 colsC5
    (by intro a _ b hb; simp at hb)
  constructor
  · rw [h.1]; rfl
  · exact h.2 [("u::id", Value.vint 3)] "p::user_id" (by simp [colsC5])

theorem bucketInsert_ne_nil (bs : List (String × List Row)) (k : String) (r : Row) :
    bucketInsert bs k r ≠ [] := by
  cases bs with
  | nil => simp [bucketInsert]
  | cons p rest =>
    by_cases h : (p :: rest).any (fun q => q.1 == k) <;> simp [bucketInsert, h]

theorem buildBuckets_ne_nil (sv : Server) (gb : List Expr) :
    ∀ (rows : List Row) (acc bs : List (String × List Row)), acc ≠ [] →
      buildBuckets sv gb rows acc = Except.ok bs → bs ≠ [] := by
  intro rows
  induction rows with
  | nil =>
    intro acc bs hacc h
    simp [buildBuckets] at h
    rw [← h]
    exact hacc
  | cons r rest ih =>
    intro acc bs hacc h
    simp only [buildBuckets] at h
    cases hk : evalGroupKeys sv gb r with
    | error e => rw [hk] at h; simp [exceptBind_err] at h
    | ok ks =>
      rw [hk, exceptBind_ok] at h
      exact ih _ bs (bucketInsert_ne_nil _ _ _) h

theorem applyGroupBy_nonempty (sv : Server) (gb : List Expr)
    (cols : List SelectColumn) (rows : List Row) (g : Grouping)
    (hgb : gb ≠ []) (h : applyGroupBy sv gb cols rows = Except.ok g) :
    ∃ bs, g = Grouping.buckets bs ∧ (rows = [] → bs = []) ∧
      (rows ≠ [] → bs ≠ []) := by
  have hne : gb.isEmpty = false := by
    cases gb with
    | nil => exact absurd rfl hgb
    | cons e rest => rfl
  simp only [applyGroupBy, hne, Bool.false_eq_true, if_false] at h
  cases hb : buildBuckets sv gb rows [] with
  | error e => rw [hb] at h; simp [exceptBind_err] at h
  | ok bs =>
    rw [hb, exceptBind_ok] at h
    refine ⟨bs, by simpa using h.symm, ?_, ?_⟩
    · intro hr
      subst hr
      simpa [buildBuckets] using hb.symm
    · intro hr
      cases rows with
      | nil => exact absurd rfl hr
      | cons r rest =>
        simp only [buildBuckets] at hb
        cases hk : evalGroupKeys sv gb r with
        | error e => rw [hk] at hb; simp [exceptBind_err] at hb
        | ok ks =>
          rw [hk, exceptBind_ok] at hb
          exact buildBuckets_ne_nil sv gb rest _ bs (bucketInsert_ne_nil _ _ _) hb

theorem applyOrderBy_buckets (sv : Server) (obs : List OrderByItem)
    (rows rows' : List Row) (bs : List (String × List Row)) (g' : Grouping)
    (h : applyOrderBy sv obs rows (Grouping.buckets bs) = Except.ok (rows', g')) :
    g' = Grouping.buckets bs := by
  by_cases ho : obs.isEmpty
  · simp only [applyOrderBy, ho, if_true] at h
    have := (Except.ok.injEq _ _).mp h
    exact (Prod.mk.injEq _ _ _ _ |>.mp this).2.symm
  · simp only [applyOrderBy, ho, Bool.false_eq_true, if_false] at h
    cases hk : keyedRows sv obs rows with
    | error e => rw [hk] at h; simp [exceptBind_err] at h
    | ok keyed =>
      rw [hk, exceptBind_ok] at h
      have := (Except.ok.injEq _ _).mp h
      exact (Prod.mk.injEq _ _ _ _ |>.mp this).2.symm

theorem applyOrderBy_nil_rows_buckets (sv : Server) (obs : List OrderByItem)
    (bs : List (String × List Row)) :
    applyOrderBy sv obs [] (Grouping.buckets bs) =
      Except.ok ([], Grouping.buckets bs) := by
  by_cases ho : obs.isEmpty
  · simp [applyOrderBy, ho]
  · simp [applyOrderBy, ho, keyedRows, stableSort, exceptBind_ok]

theorem applySelectAndHaving_buckets_rows_irrelevant (sv : Server)
    (cols : List SelectColumn) (hav : Option Expr) (d : Bool)
    (rows rows' : List Row) (bs : List (String × List Row))
    (scope : List String) (hbs : bs ≠ []) :
    applySelectAndHaving sv cols hav d rows (Grouping.buckets bs) scope =
      applySelectAndHaving sv cols hav d rows' (Grouping.buckets bs) scope := by
  have hb : bs.isEmpty = false := by
    cases bs with
    | nil => exact absurd rfl hbs
    | cons p rest => rfl
  simp [applySelectAndHaving, groupsOf, hb]

/-- C9 counterexample: in single-group aggregate mode the claim fails:
`SELECT count(*) c, id + 1 x FROM t ORDER BY id DESC` on rows id=1,2
yields `x = 3` (the sorted group's first row is id=2), while the same
query with an empty orderBy yields `x = 2`, because
`this.groupedRows.set(1, this.rows)` shares the rows array that
`applyOrderBy` sorts in place. -/
theorem c9_order_by_counterexample :
    process svC9 qC9 ≠ process svC9 { qC9 with orderBy := [] } := by
  have h1 : process svC9 qC9 =
      Except.ok [[("c", Value.vint 2), ("x", Value.vint 3)]] := by
    simp [process, throughOrderBy, applyFromAll, applyFromRest, getFromRows,
      Server.getTable, applyWhere, applyGroupBy, applyOrderBy, applySelectAndHaving,
      selectUngrouped, selectGrouped, mapRowColumns, evaluate, evaluateOverRows,
      checkIfKeep, groupsOf, qC9, svC9, tableT9, exceptBind_ok,
      hasAggregateFunction, isAggregateFunctionColumn, aggregateNames,
      firstColumnRefData, keyedRows, rowSortKeys, OrderByItem.toExpr,
      resolveColumnRef, rowLookup, splitQualified, splitOnColons, mapKeys, rowSet,
      stableSort, insertSorted, cmpKeyLists, cmpValue, orderDir,
      injectIfEmpty, shouldInjectEmptyRow, isFunctionColumn, isExpressionColumn,
      isPrimitiveColumn, isCaseColumn, isSubSelectColumn, applyDistinct,
      distinctRows, applyLimit, isStarExpr, aggregateResult, dedupValues,
      evalBinop, numValue, valEqB, valLtB, toBool3, truthy, valueToStr]
    rfl
  have h2 : process svC9 { qC9 with orderBy := [] } =
      Except.ok [[("c", Value.vint 2), ("x", Value.vint 2)]] := by
    simp [process, throughOrderBy, applyFromAll, applyFromRest, getFromRows,
      Server.getTable, applyWhere, applyGroupBy, applyOrderBy, applySelectAndHaving,
      selectUngrouped, selectGrouped, mapRowColumns, evaluate, evaluateOverRows,
      checkIfKeep, groupsOf, qC9, svC9, tableT9, exceptBind_ok,
      hasAggregateFunction, isAggregateFunctionColumn, aggregateNames,
      firstColumnRefData, keyedRows, rowSortKeys, OrderByItem.toExpr,
      resolveColumnRef, rowLookup, splitQualified, splitOnColons, mapKeys, rowSet,
      stableSort, insertSorted, cmpKeyLists, cmpValue, orderDir,
      injectIfEmpty, shouldInjectEmptyRow, isFunctionColumn, isExpressionColumn,
      isPrimitiveColumn, isCaseColumn, isSubSelectColumn, applyDistinct,
      distinctRows, applyLimit, isStarExpr, aggregateResult, dedupValues,
      evalBinop, numValue, valEqB, valLtB, toBool3, truthy, valueToStr]
  rw [h1, h2]
  simp

/-- C9 amended: the orderBy-irrelevance holds for non-empty GROUP BY
queries whose pipeline succeeds through the ORDER BY stage: the buckets
are fresh arrays populated before the sort, and the grouped SELECT branch
ignores the sorted flat rows, so the output equals that of the same query
with an empty orderBy.  In single-group aggregate mode the stored group
aliases the sorted array, so ORDER BY can change the group's
representative first row and with it any non-aggregated output
expression (see the counterexample). -/
theorem c9_order_by_grouped (sv : Server) (q : SelectQuery)
    (st : List Row × Grouping × List String)
    (hgb : q.groupBy ≠ [])
    (hord : throughOrderBy sv q = Except.ok st) :
    process sv q = process sv { q with orderBy := [] } := by
  cases hf : applyFromAll sv q.fromList with
  | error e =>
    unfold throughOrderBy at hord
    rw [hf] at hord
    simp [exceptBind_err] at hord
  | ok rc =>
    obtain ⟨rows0, scope⟩ := rc
    unfold throughOrderBy at hord
    rw [hf] at hord
    simp only [exceptBind_ok] at hord
    cases hw : applyWhere sv q.whereClause rows0 with
    | error e => rw [hw] at hord; simp [exceptBind_err] at hord
    | ok rows1 =>
      rw [hw] at hord
      simp only [exceptBind_ok] at hord
      cases hg : applyGroupBy sv q.groupBy q.columns rows1 with
      | error e => rw [hg] at hord; simp [exceptBind_err] at hord
      | ok g =>
        rw [hg] at hord
        simp only [exceptBind_ok] at hord
        obtain ⟨bs, rfl, hempty, hne⟩ :=
          applyGroupBy_nonempty sv q.groupBy q.columns rows1 g hgb hg
        cases ho : applyOrderBy sv q.orderBy rows1 (Grouping.buckets bs) with
        | error e => rw [ho] at hord; simp [exceptBind_err] at hord
        | ok rg =>
          obtain ⟨rows2, g2⟩ := rg
          have hg2 : g2 = Grouping.buckets bs :=
            applyOrderBy_buckets sv q.orderBy rows1 rows2 bs g2 ho
          subst hg2
          have hq' : throughOrderBy sv { q with orderBy := [] } =
              Except.ok (rows1, Grouping.buckets bs, scope) := by
            unfold throughOrderBy
            rw [show ({ q with orderBy := [] } : SelectQuery).fromList = q.fromList from rfl,
              hf]
            simp only [exceptBind_ok]
            rw [show ({ q with orderBy := [] } : SelectQuery).whereClause = q.whereClause from rfl,
              hw]
            simp only [exceptBind_ok]
            rw [show ({ q with orderBy := [] } : SelectQuery).groupBy = q.groupBy from rfl,
              show ({ q with orderBy := [] } : SelectQuery).columns = q.columns from rfl,
              hg]
            simp only [exceptBind_ok]
            rfl
          have hq : throughOrderBy sv q =
              Except.ok (rows2, Grouping.buckets bs, scope) := by
            unfold throughOrderBy
            rw [hf]
            simp only [exceptBind_ok]
            rw [hw]
            simp only [exceptBind_ok]
            rw [hg]
            simp only [exceptBind_ok]
            rw [ho]
            rfl
          unfold process
          rw [hq, hq']
          simp only [exceptBind_ok]
          rw [show ({ q with orderBy := [] } : SelectQuery).columns = q.columns from rfl,
            show ({ q with orderBy := [] } : SelectQuery).having = q.having from rfl,
            show ({ q with orderBy := [] } : SelectQuery).distinct = q.distinct from rfl,
            show ({ q with orderBy := [] } : SelectQuery).limit = q.limit from rfl,
            show ({ q with orderBy := [] } : SelectQuery).offset = q.offset from rfl]
          by_cases hrows : rows1 = []
          · subst hrows
            have h0 : rows2 = [] := by
              have := applyOrderBy_nil_rows_buckets sv q.orderBy bs
              rw [this] at ho
              exact ((Prod.mk.injEq _ _ _ _).mp ((Except.ok.injEq _ _).mp ho)).1.symm
            subst h0
            rfl
          · rw [applySelectAndHaving_buckets_rows_irrelevant sv q.columns q.having
              q.distinct rows2 rows1 bs scope (hne hrows)]

/-- C9 amended witness: `SELECT count(*) c FROM t GROUP BY id ORDER BY id
DESC` produces the same output as without the ORDER BY. -/
theorem c9_order_by_grouped_witness :
    qC9w.groupBy ≠ [] ∧
    process svC9 qC9w = process svC9 { qC9w with orderBy := [] } := by
  have hord : throughOrderBy svC9 qC9w =
      Except.ok ([[("t::id", Value.vint 2)], [("t::id", Value.vint 1)]],
        Grouping.buckets
          [("1", [[("t::id", Value.vint 1)]]), ("2", [[("t::id", Value.vint 2)]])],
        ["t::id"]) := by
    simp [throughOrderBy, applyFromAll, applyFromRest, getFromRows,
      Server.getTable, applyWhere, applyGroupBy, applyOrderBy,
      evaluate, qC9w, svC9, tableT9, exceptBind_ok,
      hasAggregateFunction, isAggregateFunctionColumn, aggregateNames,
      firstColumnRefData, keyedRows, rowSortKeys, OrderByItem.toExpr,
      resolveColumnRef, rowLookup, splitQualified, splitOnColons, mapKeys, rowSet,
      stableSort, insertSorted, cmpKeyLists, cmpValue, orderDir,
      buildBuckets, evalGroupKeys, bucketInsert, valueToStr]
    constructor <;> rfl
  refine ⟨by simp [qC9w], ?_⟩
  exact c9_order_by_grouped svC9 qC9w _ (by simp [qC9w]) hord

theorem evaluateDefaultValue_rows (scope : List String) (c : Column) (t : Table)
    (row : Row) : (evaluateDefaultValue scope c t row).1.rows = t.rows := by
  unfold evaluateDefaultValue Table.nextAutoIncrement
  split_ifs
  · rfl
  · cases c.defaultValue <;> rfl

theorem evaluateDefaultValue_not_ai (scope : List String) (c : Column) (t : Table)
    (row : Row) (h : c.isAutoIncrementInteger = false) :
    (evaluateDefaultValue scope c t row).1 = t := by
  unfold evaluateDefaultValue
  rw [if_neg (by simp [h])]
  cases c.defaultValue <;> rfl

theorem evaluateDefaultValue_ai (scope : List String) (c : Column) (t : Table)
    (row : Row) (h : c.isAutoIncrementInteger = true) :
    evaluateDefaultValue scope c t row =
      ({ t with autoIncrement := t.autoIncrement + 1 },
        Except.ok (Value.vint t.autoIncrement)) := by
  unfold evaluateDefaultValue Table.nextAutoIncrement
  rw [if_pos h]

theorem resolveColumnValue_rows (scope : List String) (tname : String)
    (c : Column) (t : Table) (raw : Row) :
    (resolveColumnValue scope tname c t raw).1.rows = t.rows := by
  unfold resolveColumnValue
  cases qrEval scope (Expr.column_ref (some tname) c.name) raw with
  | error msg => rfl
  | ok v =>
    by_cases hv : v = Value.vnull ∨ v = Value.vundef
    · simp only [hv, if_true]
      exact evaluateDefaultValue_rows scope c t raw
    · simp only [hv, if_false]

theorem resolveColumnValue_not_ai (scope : List String) (tname : String)
    (c : Column) (t : Table) (raw : Row)
    (h : c.isAutoIncrementInteger = false) :
    (resolveColumnValue scope tname c t raw).1 = t := by
  unfold resolveColumnValue
  cases qrEval scope (Expr.column_ref (some tname) c.name) raw with
  | error msg => rfl
  | ok v =>
    by_cases hv : v = Value.vnull ∨ v = Value.vundef
    · simp only [hv, if_true]
      exact evaluateDefaultValue_not_ai scope c t raw h
    · simp only [hv, if_false]

theorem rawValueOf_rows (scope : List String) (colDefs : List Column)
    (e : Expr) (cn : String) (acc : Row) (t : Table) :
    (rawValueOf scope colDefs e cn acc t).1.rows = t.rows := by
  unfold rawValueOf
  split_ifs
  · cases hf : colDefs.find? (fun c => c.name == cn) with
    | none => rfl
    | some c =>
      have hr := evaluateDefaultValue_rows scope c t acc
      cases hd : evaluateDefaultValue scope c t acc with
      | mk td rd =>
        rw [hd] at hr
        simp only [hf, hd]
        cases rd <;> simpa using hr
  · cases qrEval scope e acc <;> rfl

theorem buildRawRow_rows (scope : List String) (tname : String)
    (colDefs : List Column) :
    ∀ (l : List (Expr × String)) (acc : Row) (t t' : Table)
      (r : Except RunErr Row),
      buildRawRow scope tname colDefs l acc t = (t', r) → t'.rows = t.rows := by
  intro l
  induction l with
  | nil =>
    intro acc t t' r h
    simp only [buildRawRow] at h
    rw [← (Prod.mk.injEq _ _ _ _ |>.mp h).1]
  | cons p rest ih =>
    intro acc t t' r h
    obtain ⟨e, cn⟩ := p
    simp only [buildRawRow] at h
    have hrows := rawValueOf_rows scope colDefs e cn acc t
    cases hr : rawValueOf scope colDefs e cn acc t with
    | mk td rd =>
      rw [hr] at h hrows
      cases rd with
      | error err =>
        simp only at h
        rw [← (Prod.mk.injEq _ _ _ _ |>.mp h).1]
        exact hrows
      | ok v =>
        simp only at h
        rw [ih _ td t' r h]
        exact hrows

theorem buildFinalRowAux_rows (scope : List String) (tname : String)
    (raw : Row) (i : Nat) :
    ∀ (cols : List Column) (t : Table) (id : Value) (acc : Row) (t' : Table)
      (r : Except RunErr (Row × Value)),
      buildFinalRowAux scope tname raw i cols t id acc = (t', r) →
        t'.rows = t.rows := by
  intro cols
  induction cols with
  | nil =>
    intro t id acc t' r h
    simp only [buildFinalRowAux] at h
    rw [← (Prod.mk.injEq _ _ _ _ |>.mp h).1]
  | cons c cs ih =>
    intro t id acc t' r h
    simp only [buildFinalRowAux] at h
    have hrr := resolveColumnValue_rows scope tname c t raw
    cases hres : resolveColumnValue scope tname c t raw with
    | mk t₀ r₀ =>
      rw [hres] at h hrr
      cases r₀ with
      | error msg =>
        simp only at h
        rw [← (Prod.mk.injEq _ _ _ _ |>.mp h).1]
        exact hrr
      | ok v =>
        simp only at h
        by_cases hnull : (v = Value.vnull ∧ c.nullable = false)
        · rw [if_pos hnull] at h
          rw [← (Prod.mk.injEq _ _ _ _ |>.mp h).1]
          exact hrr
        · rw [if_neg hnull] at h
          cases hcast : c.cast v with
          | ok v' =>
            rw [hcast] at h
            simp only at h
            rw [ih t₀ _ _ t' r h]
            exact hrr
          | error ce =>
            rw [hcast] at h
            simp only at h
            split_ifs at h
            · rw [← (Prod.mk.injEq _ _ _ _ |>.mp h).1]
              exact hrr
            · rw [← (Prod.mk.injEq _ _ _ _ |>.mp h).1]
              exact hrr

theorem buildFinalRowAux_no_ai (scope : List String) (tname : String)
    (raw : Row) (i : Nat) :
    ∀ (cols : List Column) (t : Table) (id : Value) (acc : Row) (t' : Table)
      (row : Row) (id' : Value),
      (∀ c ∈ cols, c.isAutoIncrementInteger = false) →
      buildFinalRowAux scope tname raw i cols t id acc =
        (t', Except.ok (row, id')) →
      t' = t ∧ id' = id := by
  intro cols
  induction cols with
  | nil =>
    intro t id acc t' row id' _ h
    have h1 := (Prod.mk.injEq _ _ _ _ |>.mp h).1
    have h2 := (Prod.mk.injEq _ _ _ _ |>.mp h).2
    have h3 := (Except.ok.injEq _ _).mp h2
    exact ⟨h1.symm, ((Prod.mk.injEq _ _ _ _).mp h3).2.symm⟩
  | cons c cs ih =>
    intro t id acc t' row id' hall h
    have hcna : c.isAutoIncrementInteger = false := hall c (List.mem_cons_self _ _)
    simp only [buildFinalRowAux] at h
    cases hres : resolveColumnValue scope tname c t raw with
    | mk t₀ r₀ =>
      have hrt : t₀ = t := by
        have hx := resolveColumnValue_not_ai scope tname c t raw hcna
        rw [hres] at hx
        exact hx
      rw [hres] at h
      cases r₀ with
      | error msg => simp only at h; simp at h
      | ok v =>
        simp only at h
        by_cases hnull : (v = Value.vnull ∧ c.nullable = false)
        · rw [if_pos hnull] at h
          simp at h
        · rw [if_neg hnull] at h
          simp only [hcna, Bool.false_eq_true, if_false] at h
          cases hcast : c.cast v with
          | ok v' =>
            rw [hcast] at h
            simp only at h
            obtain ⟨h1, h2⟩ := ih t₀ id _ t' row id'
              (fun c' hc' => hall c' (List.mem_cons_of_mem _ hc')) h
            exact ⟨h1.trans hrt, h2⟩
          | error ce =>
            rw [hcast] at h
            simp only at h
            split_ifs at h <;> simp at h

theorem buildFinalRowAux_append (scope : List String) (tname : String)
    (raw : Row) (i : Nat) :
    ∀ (l₁ l₂ : List Column) (t : Table) (id : Value) (acc : Row),
      buildFinalRowAux scope tname raw i (l₁ ++ l₂) t id acc =
        (match buildFinalRowAux scope tname raw i l₁ t id acc with
         | (t', Except.ok p) => buildFinalRowAux scope tname raw i l₂ t' p.2 p.1
         | (t', Except.error e) => (t', Except.error e)) := by
  intro l₁
  induction l₁ with
  | nil => intro l₂ t id acc; rfl
  | cons c cs ih =>
    intro l₂ t id acc
    simp only [List.cons_append, buildFinalRowAux]
    cases hres : resolveColumnValue scope tname c t raw with
    | mk t₀ r₀ =>
      cases r₀ with
      | error msg => rfl
      | ok v =>
        simp only
        by_cases hnull : (v = Value.vnull ∧ c.nullable = false)
        · simp only [if_pos hnull]
        · simp only [if_neg hnull]
          cases hcast : c.cast v with
          | ok v' =>
            simp only [hcast]
            exact ih l₂ t₀ _ _
          | error ce =>
            simp only [hcast]
            by_cases hc : (ce.code = "OUT_OF_RANGE_VALUE" ∨
                ce.code = "INCORRECT_INTEGER_VALUE")
            · simp only [if_pos hc]
            · simp only [if_neg hc]

theorem insertOne_rows (tname : String) (colDefs : List Column)
    (insertCols : List String) (t : Table) (vals : List Expr) (i : Nat)
    (id : Value) (t' : Table) (r : Except RunErr (Row × Value))
    (h : insertOne tname colDefs insertCols t vals i id = (t', r)) :
    t'.rows = t.rows := by
  unfold insertOne at h
  split_ifs at h with hlen
  · rw [← (Prod.mk.injEq _ _ _ _ |>.mp h).1]
  · simp only at h
    cases hraw : buildRawRow (colDefs.map (fun c => tname ++ "::" ++ c.name))
        tname colDefs (vals.zip insertCols) [] t with
    | mk t₀ r₀ =>
      rw [hraw] at h
      have h₀ := buildRawRow_rows _ tname colDefs _ [] t t₀ r₀ hraw
      cases r₀ with
      | error e =>
        simp only at h
        rw [← (Prod.mk.injEq _ _ _ _ |>.mp h).1]
        exact h₀
      | ok raw =>
        simp only at h
        rw [buildFinalRowAux_rows _ tname raw i colDefs t₀ id [] t' r h]
        exact h₀

theorem runRows_nil (tname : String) (colDefs : List Column)
    (insertCols : List String) (i : Nat) (t : Table) (id : Value) (af : Nat) :
    runRows tname colDefs insertCols [] i t id af = (t, id, af, none) := rfl

theorem runRows_cons (tname : String) (colDefs : List Column)
    (insertCols : List String) (v : List Expr) (vs : List (List Expr))
    (i : Nat) (t : Table) (id : Value) (af : Nat) :
    runRows tname colDefs insertCols (v :: vs) i t id af =
      (match insertOne tname colDefs insertCols t v i id with
       | (t', Except.error e) => (t', id, af, some e)
       | (t', Except.ok (row, id')) =>
          runRows tname colDefs insertCols vs (i + 1) (t'.insertRow row) id' (af + 1)) := rfl

theorem runRows_append (tname : String) (colDefs : List Column)
    (insertCols : List String) :
    ∀ (pre rest : List (List Expr)) (i : Nat) (t : Table) (id : Value) (af : Nat),
      runRows tname colDefs insertCols (pre ++ rest) i t id af =
        (match runRows tname colDefs insertCols pre i t id af with
         | (t', id', af', none) =>
            runRows tname colDefs insertCols rest (i + pre.length) t' id' af'
         | (t', id', af', some e) => (t', id', af', some e)) := by
  intro pre
  induction pre with
  | nil =>
    intro rest i t id af
    rw [List.nil_append, runRows_nil]
    simp
  | cons v vs ih =>
    intro rest i t id af
    rw [List.cons_append, runRows_cons, runRows_cons]
    cases ho : insertOne tname colDefs insertCols t v i id with
    | mk t₁ r₁ =>
      cases r₁ with
      | error e => rfl
      | ok p =>
        obtain ⟨row, id₁⟩ := p
        simp only
        rw [ih rest (i + 1) (t₁.insertRow row) id₁ (af + 1)]
        have harith : i + 1 + vs.length = i + (v :: vs).length := by
          simp [List.length_cons]
          omega
        rw [harith]

theorem runRows_success_counts (tname : String) (colDefs : List Column)
    (insertCols : List String) :
    ∀ (vs : List (List Expr)) (i : Nat) (t : Table) (id : Value) (af : Nat)
      (t' : Table) (id' : Value) (af' : Nat),
      runRows tname colDefs insertCols vs i t id af = (t', id', af', none) →
        t'.rows.length = t.rows.length + vs.length ∧ af' = af + vs.length := by
  intro vs
  induction vs with
  | nil =>
    intro i t id af t' id' af' h
    rw [runRows_nil] at h
    obtain ⟨h1, _, h3, _⟩ : t = t' ∧ id = id' ∧ af = af' ∧
        (none : Option RunErr) = none := by
      simpa [Prod.ext_iff] using h
    subst h1; subst h3
    simp
  | cons v rest ih =>
    intro i t id af t' id' af' h
    rw [runRows_cons] at h
    cases ho : insertOne tname colDefs insertCols t v i id with
    | mk t₁ r₁ =>
      rw [ho] at h
      cases r₁ with
      | error e =>
        simp only at h
        have := (Prod.ext_iff.mp h).2
        simp [Prod.ext_iff] at this
      | ok p =>
        obtain ⟨row, id₁⟩ := p
        simp only at h
        obtain ⟨hlen, haf⟩ := ih (i + 1) (t₁.insertRow row) id₁ (af + 1) t' id' af' h
        have h₁ := insertOne_rows tname colDefs insertCols t v i id t₁ _ ho
        constructor
        · rw [hlen]
          simp only [Table.insertRow, List.length_append, h₁]
          simp [List.length_cons]
          omega
        · rw [haf]
          simp [List.length_cons]
          omega

/-- C2: in a multi-row INSERT whose first `pre.length` rows succeed and
whose next row fails a column cast with code `OUT_OF_RANGE_VALUE` or
`INCORRECT_INTEGER_VALUE`, the processor returns a ProcessorError whose
message is the cast error's message with ` at row i` appended (i the
1-based row index), the rows before that index remain inserted, and no
further rows are processed (the returned table is the failure-time
state, independent of the remaining rows). -/
theorem c2_insert_cast_failure (t : Table) (q : InsertQuery)
    (pre : List (List Expr)) (vals : List Expr) (rest : List (List Expr))
    (t₁ t₂ t₃ t₄ : Table) (id₁ : Value) (af₁ : Nat) (id₂ : Value)
    (acc raw : Row) (cpre cpost : List Column) (c : Column) (v : Value)
    (ce : CastErr) (insertCols scope : List String)
    (hic : insertCols = q.columns.getD (t.columns.map (fun col => col.name)))
    (hscope : scope = t.columns.map (fun col => q.table ++ "::" ++ col.name))
    (hq : q.values = pre ++ vals :: rest)
    (hpre : runRows q.table t.columns insertCols pre 0 t (Value.vint 0) 0 =
      (t₁, id₁, af₁, none))
    (hlen : vals.length = insertCols.length)
    (hraw : buildRawRow scope q.table t.columns (vals.zip insertCols) [] t₁ =
      (t₂, Except.ok raw))
    (hsplit : t.columns = cpre ++ c :: cpost)
    (hbpre : buildFinalRowAux scope q.table raw pre.length cpre t₂ id₁ [] =
      (t₃, Except.ok (acc, id₂)))
    (hres : resolveColumnValue scope q.table c t₃ raw = (t₄, Except.ok v))
    (hnn : ¬ (v = Value.vnull ∧ c.nullable = false))
    (hcast : c.cast v = Except.error ce)
    (hcode : ce.code = "OUT_OF_RANGE_VALUE" ∨ ce.code = "INCORRECT_INTEGER_VALUE") :
    processInsert t q =
      (t₄, Except.error (RunErr.processor
        (ce.msg ++ " at row " ++ toString (pre.length + 1)))) ∧
    t₄.rows = t₁.rows ∧
    t₁.rows.length = t.rows.length + pre.length := by
  have hone : insertOne q.table t.columns insertCols t₁ vals pre.length id₁ =
      (t₄, Except.error (RunErr.processor
        (ce.msg ++ " at row " ++ toString (pre.length + 1)))) := by
    unfold insertOne
    rw [if_neg (by simp [hlen])]
    simp only
    rw [← hscope, hraw]
    simp only
    rw [hsplit, buildFinalRowAux_append, hbpre]
    simp only [buildFinalRowAux]
    rw [hres]
    simp only
    rw [if_neg hnn]
    simp only [hcast]
    rw [if_pos hcode]
  have hrun : runRows q.table t.columns insertCols q.values 0 t (Value.vint 0) 0 =
      (t₄, id₁, af₁, some (RunErr.processor
        (ce.msg ++ " at row " ++ toString (pre.length + 1)))) := by
    rw [hq, runRows_append, hpre]
    simp only
    rw [Nat.zero_add, runRows_cons, hone]
  have hmain : processInsert t q =
      (t₄, Except.error (RunErr.processor
        (ce.msg ++ " at row " ++ toString (pre.length + 1)))) := by
    unfold processInsert
    simp only
    rw [← hic, hrun]
  refine ⟨hmain, ?_, ?_⟩
  · have e2 := buildRawRow_rows scope q.table t.columns _ [] t₁ t₂ _ hraw
    have e3 := buildFinalRowAux_rows scope q.table raw pre.length cpre t₂ id₁ [] t₃ _ hbpre
    have e4 : t₄.rows = t₃.rows := by
      have hx := resolveColumnValue_rows scope q.table c t₃ raw
      rw [hres] at hx
      exact hx
    rw [e4, e3, e2]
  · exact (runRows_success_counts q.table t.columns insertCols pre 0 t
      (Value.vint 0) 0 t₁ id₁ af₁ hpre).1

/-- C2 witness: `CREATE TABLE t(id INT UNSIGNED AUTO_INCREMENT, name
VARCHAR(3) NOT NULL)` then `INSERT INTO t (name) VALUES ('ok'),
('toolong')` leaves the first row inserted with id=1 and raises the
out-of-range error with ` at row 2` appended. -/
theorem c2_insert_cast_failure_witness :
    processInsert tableT2 insertQ2 =
      (⟨tableT2.columns, [[("id", Value.vint 1), ("name", Value.vstr "ok")]], 3⟩,
        Except.error (RunErr.processor "Data too long for column 'name' at row 2")) ∧
    (processInsert tableT2 insertQ2).1.rows =
      [[("id", Value.vint 1), ("name", Value.vstr "ok")]] := by
  have h := c2_insert_cast_failure tableT2 insertQ2
    [[Expr.str "ok"]] [Expr.str "toolong"] []
    ⟨tableT2.columns, [[("id", Value.vint 1), ("name", Value.vstr "ok")]], 2⟩
    ⟨tableT2.columns, [[("id", Value.vint 1), ("name", Value.vstr "ok")]], 2⟩
    ⟨tableT2.columns, [[("id", Value.vint 1), ("name", Value.vstr "ok")]], 3⟩
    ⟨tableT2.columns, [[("id", Value.vint 1), ("name", Value.vstr "ok")]], 3⟩
    (Value.vint 1) 1 (Value.vint 2)
    [("id", Value.vint 2)] [("t::name", Value.vstr "toolong")]
    [colIdAI] [] colName3 (Value.vstr "toolong")
    ⟨"OUT_OF_RANGE_VALUE", "Data too long for column 'name'"⟩
    ["name"] ["t::id", "t::name"]
    rfl rfl rfl rfl rfl rfl rfl rfl rfl (by decide) rfl (Or.inl rfl)
  refine ⟨h.1, ?_⟩
  rw [h.1]

theorem rawValueOf_not_ai (scope : List String) (colDefs : List Column)
    (e : Expr) (cn : String) (acc : Row) (t : Table)
    (h : ∀ col, colDefs.find? (fun c => c.name == cn) = some col →
      col.isAutoIncrementInteger = false) :
    (rawValueOf scope colDefs e cn acc t).1 = t := by
  unfold rawValueOf
  split_ifs
  · cases hf : colDefs.find? (fun c => c.name == cn) with
    | none => rfl
    | some c =>
      have hr := evaluateDefaultValue_not_ai scope c t acc (h c hf)
      cases hd : evaluateDefaultValue scope c t acc with
      | mk td rd =>
        rw [hd] at hr
        simp only [hf, hd]
        cases rd <;> simpa using hr
  · cases qrEval scope e acc <;> rfl

theorem buildRawRow_not_ai (scope : List String) (tname : String)
    (colDefs : List Column) :
    ∀ (l : List (Expr × String)) (acc : Row) (t t' : Table)
      (r : Except RunErr Row),
      (∀ p ∈ l, ∀ col, colDefs.find? (fun c => c.name == p.2) = some col →
        col.isAutoIncrementInteger = false) →
      buildRawRow scope tname colDefs l acc t = (t', r) → t' = t := by
  intro l
  induction l with
  | nil =>
    intro acc t t' r _ h
    simp only [buildRawRow] at h
    exact (Prod.mk.injEq _ _ _ _ |>.mp h).1.symm
  | cons p rest ih =>
    intro acc t t' r hall h
    obtain ⟨e, cn⟩ := p
    simp only [buildRawRow] at h
    have hrt : (rawValueOf scope colDefs e cn acc t).1 = t :=
      rawValueOf_not_ai scope colDefs e cn acc t
        (fun col hcol => hall (e, cn) (List.mem_cons_self _ _) col hcol)
    cases hr : rawValueOf scope colDefs e cn acc t with
    | mk td rd =>
      rw [hr] at h hrt
      simp only at hrt
      cases rd with
      | error err =>
        simp only at h
        rw [← (Prod.mk.injEq _ _ _ _ |>.mp h).1]
        exact hrt
      | ok v =>
        simp only at h
        rw [ih _ td t' r
          (fun p' hp' col hcol => hall p' (List.mem_cons_of_mem _ hp') col hcol) h]
        exact hrt

theorem buildRawRow_keys (scope : List String) (tname : String)
    (colDefs : List Column) :
    ∀ (l : List (Expr × String)) (acc : Row) (t t' : Table) (raw : Row),
      buildRawRow scope tname colDefs l acc t = (t', Except.ok raw) →
      ∀ k, rowLookup raw k ≠ none →
        rowLookup acc k ≠ none ∨ ∃ p ∈ l, k = tname ++ "::" ++ p.2 := by
  intro l
  induction l with
  | nil =>
    intro acc t t' raw h k hk
    simp only [buildRawRow] at h
    have : raw = acc := by
      have := (Prod.mk.injEq _ _ _ _ |>.mp h).2
      exact ((Except.ok.injEq _ _).mp this).symm
    rw [this] at hk
    exact Or.inl hk
  | cons p rest ih =>
    intro acc t t' raw h k hk
    obtain ⟨e, cn⟩ := p
    simp only [buildRawRow] at h
    cases hr : rawValueOf scope colDefs e cn acc t with
    | mk td rd =>
      rw [hr] at h
      cases rd with
      | error err => simp only at h; simp at h
      | ok v =>
        simp only at h
        rcases ih _ td t' raw h k hk with hacc | ⟨p', hp', hkey⟩
        · rw [rowLookup_rowSet] at hacc
          by_cases hkk : k = tname ++ "::" ++ cn
          · exact Or.inr ⟨(e, cn), List.mem_cons_self _ _, hkk⟩
          · rw [if_neg hkk] at hacc
            exact Or.inl hacc
        · exact Or.inr ⟨p', List.mem_cons_of_mem _ hp', hkey⟩

theorem qualKey_inj (tname a b : String)
    (h : tname ++ "::" ++ a = tname ++ "::" ++ b) : a = b := by
  have hd : (tname ++ "::" ++ a).data = (tname ++ "::" ++ b).data := by rw [h]
  simp only [String.data_append] at hd
  have := List.append_cancel_left hd
  exact String.ext this

theorem resolveColumnValue_ai_missing (scope : List String) (tname : String)
    (ai : Column) (t : Table) (raw : Row)
    (hai : ai.isAutoIncrementInteger = true)
    (hmem : (tname ++ "::" ++ ai.name) ∈ scope)
    (hlookup : rowLookup raw (tname ++ "::" ++ ai.name) = none) :
    resolveColumnValue scope tname ai t raw =
      ({ t with autoIncrement := t.autoIncrement + 1 },
        Except.ok (Value.vint t.autoIncrement)) := by
  unfold resolveColumnValue qrEval
  simp only
  rw [if_pos (show scope.contains (tname ++ "::" ++ ai.name) = true from
    List.elem_iff.mpr hmem)]
  rw [hlookup]
  simp only [Option.getD_none]
  rw [if_pos (Or.inr trivial)]
  exact evaluateDefaultValue_ai scope ai t raw hai

theorem buildFinalRowAux_ai_head (scope : List String) (tname : String)
    (raw : Row) (i : Nat) (ai : Column) (cpost : List Column) (t : Table)
    (id : Value) (acc : Row) (t' : Table) (row : Row) (id' : Value)
    (hai : ai.isAutoIncrementInteger = true)
    (hmem : (tname ++ "::" ++ ai.name) ∈ scope)
    (hlookup : rowLookup raw (tname ++ "::" ++ ai.name) = none)
    (hpost : ∀ c ∈ cpost, c.isAutoIncrementInteger = false)
    (h : buildFinalRowAux scope tname raw i (ai :: cpost) t id acc =
      (t', Except.ok (row, id'))) :
    t' = { t with autoIncrement := t.autoIncrement + 1 } ∧
    id' = Value.vint t.autoIncrement := by
  simp only [buildFinalRowAux,
    resolveColumnValue_ai_missing scope tname ai t raw hai hmem hlookup] at h
  rw [if_neg (by simp)] at h
  rw [hai] at h
  simp only [if_true] at h
  cases hcast : ai.cast (Value.vint t.autoIncrement) with
  | ok v' =>
    rw [hcast] at h
    simp only at h
    exact buildFinalRowAux_no_ai scope tname raw i cpost _ _ _ t' row id' hpost h
  | error ce =>
    rw [hcast] at h
    simp only at h
    split_ifs at h <;> simp at h

theorem insertOne_no_ai (tname : String) (colDefs : List Column)
    (insertCols : List String) (t : Table) (vals : List Expr) (i : Nat)
    (id : Value) (t₁ : Table) (row : Row) (id₁ : Value)
    (hall : ∀ c ∈ colDefs, c.isAutoIncrementInteger = false)
    (h : insertOne tname colDefs insertCols t vals i id =
      (t₁, Except.ok (row, id₁))) :
    id₁ = id := by
  unfold insertOne at h
  split_ifs at h with hlen
  · simp at h
  · simp only at h
    cases hraw : buildRawRow (colDefs.map (fun c => tname ++ "::" ++ c.name))
        tname colDefs (vals.zip insertCols) [] t with
    | mk t₂ r₂ =>
      rw [hraw] at h
      cases r₂ with
      | error e => simp at h
      | ok raw =>
        simp only at h
        exact (buildFinalRowAux_no_ai _ tname raw i colDefs t₂ id [] t₁ row id₁
          hall h).2

theorem insertOne_ai (tname : String) (colDefs : List Column)
    (insertCols : List String) (t : Table) (vals : List Expr) (i : Nat)
    (id : Value) (t₁ : Table) (row : Row) (id₁ : Value)
    (cpre : List Column) (ai : Column) (cpost : List Column)
    (hsplit : colDefs = cpre ++ ai :: cpost)
    (hai : ai.isAutoIncrementInteger = true)
    (hpre : ∀ c ∈ cpre, c.isAutoIncrementInteger = false)
    (hpost : ∀ c ∈ cpost, c.isAutoIncrementInteger = false)
    (hnotin : ai.name ∉ insertCols)
    (h : insertOne tname colDefs insertCols t vals i id =
      (t₁, Except.ok (row, id₁))) :
    id₁ = Value.vint (t₁.autoIncrement - 1) := by
  unfold insertOne at h
  split_ifs at h with hlen
  · simp at h
  · simp only at h
    set sc := colDefs.map (fun c => tname ++ "::" ++ c.name) with hsc
    cases hraw : buildRawRow sc tname colDefs (vals.zip insertCols) [] t with
    | mk t₂ r₂ =>
      rw [hraw] at h
      cases r₂ with
      | error e => simp at h
      | ok raw =>
        simp only at h
        rw [hsplit, buildFinalRowAux_append] at h
        cases hb1 : buildFinalRowAux sc tname raw i cpre t₂ id [] with
        | mk t₃ r₃ =>
          rw [hb1] at h
          cases r₃ with
          | error e => simp at h
          | ok p =>
            obtain ⟨acc, id₂⟩ := p
            simp only at h
            have hlook : rowLookup raw (tname ++ "::" ++ ai.name) = none := by
              by_contra hlk
              rcases buildRawRow_keys sc tname colDefs _ [] t t₂ raw hraw _ hlk with
                hacc | ⟨p', hp', hkey⟩
              · exact hacc rfl
              · have hname : ai.name = p'.2 := qualKey_inj tname _ _ hkey
                have hp2 : p'.2 ∈ insertCols := (List.of_mem_zip hp').2
                rw [← hname] at hp2
                exact hnotin hp2
            have hmem : (tname ++ "::" ++ ai.name) ∈ sc := by
              rw [hsc]
              refine List.mem_map.mpr ⟨ai, ?_, rfl⟩
              rw [hsplit]
              exact List.mem_append.mpr (Or.inr (List.mem_cons_self _ _))
            obtain ⟨ht₁, hid₁⟩ := buildFinalRowAux_ai_head sc tname raw i ai cpost
              t₃ id₂ acc t₁ row id₁ hai hmem hlook hpost h
            rw [hid₁, ht₁]
            simp

theorem runRows_no_ai (tname : String) (colDefs : List Column)
    (insertCols : List String)
    (hall : ∀ c ∈ colDefs, c.isAutoIncrementInteger = false) :
    ∀ (vs : List (List Expr)) (i : Nat) (t : Table) (id : Value) (af : Nat)
      (t' : Table) (id' : Value) (af' : Nat),
      runRows tname colDefs insertCols vs i t id af = (t', id', af', none) →
      id' = id := by
  intro vs
  induction vs with
  | nil =>
    intro i t id af t' id' af' h
    rw [runRows_nil] at h
    obtain ⟨_, h2, _⟩ : t = t' ∧ id = id' ∧ af = af' ∧
        (none : Option RunErr) = none := by
      simpa [Prod.ext_iff] using h
    exact h2.symm
  | cons v rest ih =>
    intro i t id af t' id' af' h
    rw [runRows_cons] at h
    cases ho : insertOne tname colDefs insertCols t v i id with
    | mk t₁ r₁ =>
      rw [ho] at h
      cases r₁ with
      | error e =>
        have := (Prod.ext_iff.mp h).2
        simp [Prod.ext_iff] at this
      | ok p =>
        obtain ⟨row, id₁⟩ := p
        simp only at h
        have hstep : id₁ = id :=
          insertOne_no_ai tname colDefs insertCols t v i id t₁ row id₁ hall ho
        rw [← hstep]
        exact ih (i + 1) (t₁.insertRow row) id₁ (af + 1) t' id' af' h

theorem runRows_ai (tname : String) (colDefs : List Column)
    (insertCols : List String) (cpre : List Column) (ai : Column)
    (cpost : List Column)
    (hsplit : colDefs = cpre ++ ai :: cpost)
    (hai : ai.isAutoIncrementInteger = true)
    (hpre : ∀ c ∈ cpre, c.isAutoIncrementInteger = false)
    (hpost : ∀ c ∈ cpost, c.isAutoIncrementInteger = false)
    (hnotin : ai.name ∉ insertCols) :
    ∀ (vs : List (List Expr)) (i : Nat) (t : Table) (id : Value) (af : Nat)
      (t' : Table) (id' : Value) (af' : Nat),
      runRows tname colDefs insertCols vs i t id af = (t', id', af', none) →
      vs ≠ [] → id' = Value.vint (t'.autoIncrement - 1) := by
  intro vs
  induction vs with
  | nil =>
    intro i t id af t' id' af' _ hne
    exact absurd rfl hne
  | cons v rest ih =>
    intro i t id af t' id' af' h _
    rw [runRows_cons] at h
    cases ho : insertOne tname colDefs insertCols t v i id with
    | mk t₁ r₁ =>
      rw [ho] at h
      cases r₁ with
      | error e =>
        have := (Prod.ext_iff.mp h).2
        simp [Prod.ext_iff] at this
      | ok p =>
        obtain ⟨row, id₁⟩ := p
        simp only at h
        have hid₁ : id₁ = Value.vint (t₁.autoIncrement - 1) :=
          insertOne_ai tname colDefs insertCols t v i id t₁ row id₁
            cpre ai cpost hsplit hai hpre hpost hnotin ho
        by_cases hrest : rest = []
        · subst hrest
          rw [runRows_nil] at h
          obtain ⟨h1, h2, _⟩ : t₁.insertRow row = t' ∧ id₁ = id' ∧
              af + 1 = af' ∧ (none : Option RunErr) = none := by
            simpa [Prod.ext_iff] using h
          rw [← h2, hid₁, ← h1]
          rfl
        · exact ih (i + 1) (t₁.insertRow row) id₁ (af + 1) t' id' af' h hrest

/-- C3 counterexample: the claim says `insertId` equals the last
auto-increment value assigned during the insert, but the processor
captures the auto-increment column's resolved value unconditionally,
whether it came from the counter or was supplied explicitly.  For
`INSERT INTO t (id, name) VALUES (NULL,'a'),(7,'b')` only row 1 draws
from the counter (id = 1, final counter 2, so the last value assigned is
2 - 1 = 1), yet `insertId` is the explicitly supplied 7. -/
theorem c3_insert_id_counterexample :
    processInsert tableT2 insertQC3 =
      (⟨tableT2.columns,
        [[("id", Value.vint 1), ("name", Value.vstr "a")],
          [("id", Value.vint 7), ("name", Value.vstr "b")]], 2⟩,
        Except.ok ⟨2, Value.vint 7⟩) ∧
    (processInsert tableT2 insertQC3).1.autoIncrement - 1 = 1 ∧
    Value.vint 7 ≠ Value.vint 1 := by
  refine ⟨rfl, by decide, by decide⟩

/-- C3 (amended): an INSERT of `n` value rows that all succeed grows the
target table by exactly `n` rows and returns `affectedRows = n`;
`insertId` is 0 when the table has no auto-increment column, and when the
table has exactly one auto-increment column that the INSERT's column
list omits (so every row draws its value from the counter), `insertId`
is the last auto-increment value assigned, namely the final counter
minus one.  When the auto-increment column is listed, `insertId` is
instead the value resolved for it in the last row, which an explicitly
supplied value overrides (see the counterexample). -/
theorem c3_insert_success_amended (t : Table) (q : InsertQuery) (t' : Table)
    (s : Summary)
    (hok : processInsert t q = (t', Except.ok s)) :
    t'.rows.length = t.rows.length + q.values.length ∧
    s.affectedRows = q.values.length ∧
    ((∀ c ∈ t.columns, c.isAutoIncrementInteger = false) →
      s.insertId = Value.vint 0) ∧
    (∀ cpre ai cpost, t.columns = cpre ++ ai :: cpost →
      ai.isAutoIncrementInteger = true →
      (∀ c ∈ cpre, c.isAutoIncrementInteger = false) →
      (∀ c ∈ cpost, c.isAutoIncrementInteger = false) →
      ai.name ∉ q.columns.getD (t.columns.map (fun col => col.name)) →
      q.values ≠ [] →
      s.insertId = Value.vint (t'.autoIncrement - 1)) := by
  unfold processInsert at hok
  simp only at hok
  cases hrun : runRows q.table t.columns
      (q.columns.getD (t.columns.map (fun c => c.name))) q.values 0 t
      (Value.vint 0) 0 with
  | mk th rest3 =>
    obtain ⟨idh, afh, errh⟩ := rest3
    rw [hrun] at hok
    cases errh with
    | some e => simp at hok
    | none =>
      simp only at hok
      obtain ⟨ht, hs⟩ : th = t' ∧ (⟨afh, idh⟩ : Summary) = s := by
        constructor
        · exact (Prod.mk.injEq _ _ _ _ |>.mp hok).1
        · exact (Except.ok.injEq _ _).mp (Prod.mk.injEq _ _ _ _ |>.mp hok).2
      subst ht
      obtain ⟨hlen, haf⟩ := runRows_success_counts q.table t.columns
        (q.columns.getD (t.columns.map (fun c => c.name))) q.values 0 t
        (Value.vint 0) 0 th idh afh hrun
      refine ⟨hlen, ?_, ?_, ?_⟩
      · rw [← hs]
        simpa using haf
      · intro hall
        rw [← hs]
        simp only
        exact runRows_no_ai q.table t.columns _ hall q.values 0 t
          (Value.vint 0) 0 th idh afh hrun
      · intro cpre ai cpost hsplit hai hpre hpost hnotin hne
        rw [← hs]
        simp only
        exact runRows_ai q.table t.columns _ cpre ai cpost hsplit hai hpre hpost
          (by simpa using hnotin) q.values 0 t (Value.vint 0) 0 th idh afh
          hrun hne

/-- C3 (amended) witness: inserting two rows into
`t(id INT UNSIGNED AUTO_INCREMENT, name VARCHAR(3))` through the column
list `(name)` (the auto-increment column omitted) grows the table by 2,
reports `affectedRows = 2` and `insertId = 2`, the last auto-increment
value assigned. -/
theorem c3_insert_success_amended_witness :
    (processInsert tableT2 insertQ3).1.rows.length = tableT2.rows.length + 2 ∧
    (∃ s : Summary, processInsert tableT2 insertQ3 =
      ((processInsert tableT2 insertQ3).1, Except.ok s) ∧
      s.affectedRows = 2 ∧
      s.insertId = Value.vint ((processInsert tableT2 insertQ3).1.autoIncrement - 1) ∧
      s.insertId = Value.vint 2) := by
  have hok : processInsert tableT2 insertQ3 =
      ((processInsert tableT2 insertQ3).1, Except.ok ⟨2, Value.vint 2⟩) := by rfl
  have h := c3_insert_success_amended tableT2 insertQ3
    (processInsert tableT2 insertQ3).1 ⟨2, Value.vint 2⟩ hok
  refine ⟨by simpa using h.1, ⟨2, Value.vint 2⟩, hok, rfl, ?_, rfl⟩
  exact h.2.2.2 [] colIdAI [colName3] rfl rfl (by simp)
    (by intro c hc; simp at hc; subst hc; rfl)
    (by simp [insertQ3, tableT2, colIdAI, colName3]) (by simp [insertQ3])

/-- C10 counterexample: the claim's final clause says null is stored only
when neither the auto-increment rule nor a default expression applies; but
for `k VARCHAR(5) NULL DEFAULT NULL`, `INSERT INTO t (k) VALUES (NULL)`
triggers the default fallback (a default expression IS present, so it
"applies"), the default evaluates to null, and null is stored anyway. -/
theorem c10_null_default_counterexample :
    colKDefNull.defaultValue ≠ none ∧
    colKDefNull.isAutoIncrementInteger = false ∧
    processInsert tableK10 insertQ10 =
      (⟨tableK10.columns, [[("k", Value.vnull)]], 1⟩,
        Except.ok ⟨1, Value.vint 0⟩) := by
  refine ⟨?_, rfl, rfl⟩
  intro h
  simp [colKDefNull] at h

/-- C10 (amended): in the final-row construction, the `??` fallback to
`evaluateDefaultValue` triggers exactly when the value looked up from the
raw row is null or undefined (not only when the column was omitted), and
the default evaluator then assigns the next auto-increment counter value
for an auto-increment integer column, the evaluated default expression
for a column that has one (which may itself be null), and null otherwise. -/
theorem c10_null_fallback (scope : List String) (tname : String)
    (c : Column) (t : Table) (raw : Row) (v : Value)
    (hv : qrEval scope (Expr.column_ref (some tname) c.name) raw =
      Except.ok v) :
    ((v = Value.vnull ∨ v = Value.vundef) →
      resolveColumnValue scope tname c t raw =
        evaluateDefaultValue scope c t raw) ∧
    (¬(v = Value.vnull ∨ v = Value.vundef) →
      resolveColumnValue scope tname c t raw = (t, Except.ok v)) ∧
    (c.isAutoIncrementInteger = true →
      evaluateDefaultValue scope c t raw =
        ({ t with autoIncrement := t.autoIncrement + 1 },
          Except.ok (Value.vint t.autoIncrement))) ∧
    (c.isAutoIncrementInteger = false →
      ∀ d, c.defaultValue = some d →
        evaluateDefaultValue scope c t raw = (t, qrEval scope d raw)) ∧
    (c.isAutoIncrementInteger = false → c.defaultValue = none →
      evaluateDefaultValue scope c t raw = (t, Except.ok Value.vnull)) := by
  refine ⟨?_, ?_, ?_, ?_, ?_⟩
  · intro h
    unfold resolveColumnValue
    rw [hv]
    simp only [h, if_true]
  · intro h
    unfold resolveColumnValue
    rw [hv]
    simp only [h, if_false]
  · intro hai
    exact evaluateDefaultValue_ai scope c t raw hai
  · intro hna d hd
    unfold evaluateDefaultValue
    rw [if_neg (by simp [hna]), hd]
  · intro hna hd
    unfold evaluateDefaultValue
    rw [if_neg (by simp [hna]), hd]

/-- C10 witness: for `k VARCHAR(5) NULL DEFAULT NULL` with the raw row
binding `t::k` to null, the resolution falls back to the default
evaluator and yields the evaluated default, here null. -/
theorem c10_null_fallback_witness :
    resolveColumnValue ["t::k"] "t" colKDefNull tableK10
        [("t::k", Value.vnull)] =
      (tableK10, Except.ok Value.vnull) := by
  have h := c10_null_fallback ["t::k"] "t" colKDefNull tableK10
    [("t::k", Value.vnull)] Value.vnull rfl
  rw [h.1 (Or.inl rfl), h.2.2.2.1 rfl Expr.null rfl]
  rfl

end MysqlEmulator
